import Mathlib

/-!
Shallow embedding of the demographic projection engine of the demosim
repository (cohort-component population simulation with economic metrics),
together with proofs settling the specification claims.

The embedding follows the current, post-fix revision of the engine
(the revision of `utils/simulation.ts` that contains parameter validation,
the age-100 improvement guard, migration carry-forward with final
application to age 99, half-year migrant mortality, and the
public-healthcare share).  JavaScript numbers are modelled as exact
rationals, population counts as integers.  The external read-only data
tables (life table, fertility table, migration profile, baseline
population, economic parameters) are supplied through an explicit
environment record, as the spec treats them as injected read-only inputs;
the migration and fertility tables, which are present in the repository,
are also reproduced concretely below.  The only numeric primitive that is
not rational-valued, `Math.sqrt`, is part of the environment as `sqrtFn`;
concrete instantiations use exact square-root values at the points where
it is evaluated.
-/

namespace DemoSim

/-- Model of JavaScript `Math.floor` on exact rationals. -/
def jsFloor (q : ℚ) : ℤ := ⌊q⌋

/-- Model of JavaScript `Math.round` on exact rationals:
rounds half toward positive infinity. -/
def jsRound (q : ℚ) : ℤ := ⌊q + 1/2⌋

/-- Sex tag used by the rate lookups. -/
inductive Sex where
  | male
  | female
deriving DecidableEq

/-- One single-year age cohort (interface `AgeGroup` in `types.ts`). -/
structure AgeGroup where
  age : ℕ
  male : ℤ
  female : ℤ
  total : ℤ
deriving DecidableEq

/-- Sex-specific annual mortality-improvement rates
(interface `MortalityImprovementRate`). -/
structure MortalityImprovementRate where
  male : ℚ
  female : ℚ
deriving DecidableEq

/-- Caller-supplied simulation parameters (interface `SimulationParams`). -/
structure SimulationParams where
  retirementAge : ℤ
  fertilityRate : ℚ
  netMigration : ℚ
  mortalityImprovement : MortalityImprovementRate
  workforceEntryAgeShift : ℤ
  unemploymentAdjustment : ℚ
deriving DecidableEq

/-- An age band of an external table, already parsed: the source function
`parseAgeGroup` turns a string such as `20-24` into the pair (20, 24) and a
string such as `80+` into the pair (80, 100).  We embed the parsed result. -/
structure AgeBand where
  lo : ℕ
  hi : ℕ
  weight : ℚ
deriving DecidableEq

/-- An employment-rate band from `economicParams.json`, parsed like
`AgeBand`; bounds are integers because the effective age used for the
lookup can be shifted by the (integer) workforce-entry-age shift. -/
structure EmploymentBand where
  lo : ℤ
  hi : ℤ
  rate : ℚ
deriving DecidableEq

/-- The scalar constants and tables of `economicParams.json`. -/
structure EconParams where
  ssContributionRateTotal : ℚ
  averageGrossSalary2024 : ℚ
  annualMultiplier : ℚ
  averagePension2024 : ℚ
  usdToEur : ℚ
  perCapitaSpending2024 : ℚ
  annualGrowthRate : ℚ
  healthcareAnnualInflation : ℚ
  gdpPerWorker2024 : ℚ
  publicShare : ℚ
  employmentRates : List EmploymentBand
  multChild : ℚ
  multAdult : ℚ
  multYoungElderly : ℚ
  multOldElderly : ℚ
  multOldest : ℚ
deriving DecidableEq

/-- A row of the baseline population table `population2024`. -/
structure PopRow where
  age : ℕ
  male : ℤ
  female : ℤ
deriving DecidableEq

/-- The read-only reference data injected into the engine: the life table
(`lifeTables.qx`, one probability per age and sex), the fertility table
(`fertilityData.asfr`, rate per thousand by age, plus the sex ratio at
birth), the migration profile (`migrationData.ageProfile` bands and the
migration sex ratio), the baseline population, the economic parameters, and
the square-root primitive used by the half-year migrant-mortality formula. -/
structure Env where
  qxMale : ℕ → ℚ
  qxFemale : ℕ → ℚ
  asfr : List (ℕ × ℚ)
  sexRatioAtBirth : ℚ
  migProfileMale : List AgeBand
  migProfileFemale : List AgeBand
  migSexProportionMale : ℚ
  sqrtFn : ℚ → ℚ
  initialData : List PopRow
  econ : EconParams

/-- Life-table lookup by sex. -/
def qxTable (env : Env) (sex : Sex) : ℕ → ℚ :=
  match sex with
  | Sex.male => env.qxMale
  | Sex.female => env.qxFemale

/-- Improvement-rate selection by sex. -/
def improvementOf (mi : MortalityImprovementRate) (sex : Sex) : ℚ :=
  match sex with
  | Sex.male => mi.male
  | Sex.female => mi.female

/-- Source `generateInitialData`: maps each baseline row to a cohort whose
total is the sum of the male and female counts. -/
def generateInitialData (env : Env) : List AgeGroup :=
  env.initialData.map (fun row => ⟨row.age, row.male, row.female, row.male + row.female⟩)

/-- Source `getMortalityRate`: base qx looked up at `min age 100`; the
mortality-improvement factor is applied only below age 100 (the terminal
bucket keeps its table value); the result is clamped to at most 1. -/
def getMortalityRate (env : Env) (age : ℕ) (sex : Sex) (yearsFromBase : ℕ)
    (mi : MortalityImprovementRate) : ℚ :=
  let baseQx := qxTable env sex (min age 100)
  let improvementRate := improvementOf mi sex
  let improvedQx := if 100 ≤ age then baseQx else baseQx * (1 - improvementRate) ^ yearsFromBase
  min improvedQx 1

/-- Source `getFertilityRate`: find the ASFR entry for the age and convert
from births per thousand women to births per woman; zero when absent. -/
def getFertilityRate (env : Env) (age : ℕ) : ℚ :=
  match env.asfr.find? (fun a => decide (a.1 = age)) with
  | some e => e.2 / 1000
  | none => 0

/-- Total weight of a migration profile, used for normalization. -/
def profileTotalWeight (profile : List AgeBand) : ℚ :=
  (profile.map (fun g => g.weight)).sum

/-- Source `getMigrationWeight`: the first band containing the age
contributes its weight, normalized by the profile total and spread evenly
over the ages the band spans; zero when no band contains the age. -/
def getMigrationWeight (env : Env) (age : ℕ) (sex : Sex) : ℚ :=
  let profile := match sex with
    | Sex.male => env.migProfileMale
    | Sex.female => env.migProfileFemale
  let totalWeight := profileTotalWeight profile
  match profile.find? (fun g => decide (g.lo ≤ age) && decide (age ≤ g.hi)) with
  | some g => (g.weight / totalWeight) / ((g.hi : ℚ) - (g.lo : ℚ) + 1)
  | none => 0

/-- Source `getEmploymentRate`: base rate looked up at the effective age
`max 15 (age - shift)`, scaled by `1 - unemploymentAdjustment` and clamped
to the interval from 0 to 1. -/
def getEmploymentRate (env : Env) (age : ℤ) (workforceEntryAgeShift : ℤ)
    (unemploymentAdjustment : ℚ) : ℚ :=
  let effectiveAge := max 15 (age - workforceEntryAgeShift)
  let baseRate := match env.econ.employmentRates.find?
      (fun e => decide (e.lo ≤ effectiveAge) && decide (effectiveAge ≤ e.hi)) with
    | some e => e.rate
    | none => 0
  let adjustedRate := baseRate * (1 - unemploymentAdjustment)
  max 0 (min 1 adjustedRate)

/-- Source `getHealthcareMultiplier`: step function over the five age bands. -/
def getHealthcareMultiplier (env : Env) (age : ℕ) : ℚ :=
  if age ≤ 19 then env.econ.multChild
  else if age ≤ 64 then env.econ.multAdult
  else if age ≤ 74 then env.econ.multYoungElderly
  else if age ≤ 84 then env.econ.multOldElderly
  else env.econ.multOldest

/-- Result record of the economic-metrics calculator
(interface `EconomicMetrics`, current revision). -/
structure EconomicMetrics where
  actualWorkforce : ℤ
  laborUtilizationRate : ℚ
  totalSSContributions : ℚ
  totalPensionPayments : ℚ
  ssBalance : ℚ
  ssBalancePerWorker : ℚ
  totalHealthcareCost : ℚ
  publicHealthcareCost : ℚ
  healthcareCostPerWorker : ℚ
  totalBurdenPerWorker : ℚ
  sustainabilityIndex : ℚ
deriving DecidableEq

/-- Workforce accumulation loop of `calculateEconomicMetrics`: each cohort
contributes employment-weighted members when of working age, and again when
at or past retirement age (post-retirement workers). -/
def actualWorkforceExact (env : Env) (population : List AgeGroup) (retirementAge : ℤ)
    (shift : ℤ) (unemp : ℚ) : ℚ :=
  (population.map (fun g =>
    (if 15 ≤ (g.age : ℤ) ∧ (g.age : ℤ) < retirementAge then
      (g.total : ℚ) * getEmploymentRate env (g.age : ℤ) shift unemp else 0) +
    (if retirementAge ≤ (g.age : ℤ) then
      (g.total : ℚ) * getEmploymentRate env (g.age : ℤ) shift unemp else 0))).sum

/-- Rounded actual workforce. -/
def actualWorkforceOf (env : Env) (population : List AgeGroup) (retirementAge : ℤ)
    (shift : ℤ) (unemp : ℚ) : ℤ :=
  jsRound (actualWorkforceExact env population retirementAge shift unemp)

/-- Working-age population accumulated in the same loop. -/
def workingAgePopOf (population : List AgeGroup) (retirementAge : ℤ) : ℤ :=
  (population.map (fun g =>
    if 15 ≤ (g.age : ℤ) ∧ (g.age : ℤ) < retirementAge then g.total else 0)).sum

/-- Pensioner accumulation loop: retirement-age cohorts weighted by the
share not still working, then rounded. -/
def actualPensionersOf (env : Env) (population : List AgeGroup) (retirementAge : ℤ)
    (shift : ℤ) (unemp : ℚ) : ℤ :=
  jsRound ((population.map (fun g =>
    if retirementAge ≤ (g.age : ℤ) then
      (g.total : ℚ) * (1 - getEmploymentRate env (g.age : ℤ) shift unemp) else 0)).sum)

/-- Healthcare cost accumulation loop. -/
def totalHealthcareCostOf (env : Env) (population : List AgeGroup)
    (healthcareInflationFactor : ℚ) : ℚ :=
  (population.map (fun g =>
    (g.total : ℚ) *
      (env.econ.perCapitaSpending2024 * env.econ.usdToEur *
        getHealthcareMultiplier env g.age * healthcareInflationFactor))).sum

/-- GDP proxy of the sustainability computation:
`actualWorkforce * gdpPerWorker * wageInflationFactor`. -/
def gdpProxyOf (env : Env) (yearsFromBase : ℕ) (workforce : ℤ) : ℚ :=
  (workforce : ℚ) * env.econ.gdpPerWorker2024 * (1 + env.econ.annualGrowthRate) ^ yearsFromBase

/-- Sustainability-index computation: defaults to 0 (critical) and is set
from the clamped burden formula only when the GDP proxy is positive.  The
constant 2/5 is the literal 0.40 maximum sustainable burden share. -/
def sustainabilityIndexOf (env : Env) (yearsFromBase : ℕ) (workforce : ℤ)
    (totalFiscalBurden : ℚ) : ℚ :=
  if 0 < gdpProxyOf env yearsFromBase workforce then
    max 0 (min 100
      (100 * (1 - (totalFiscalBurden / gdpProxyOf env yearsFromBase workforce) / (2/5))))
  else 0

/-- Source `calculateEconomicMetrics` (current revision): social-security
balance from workforce and pensioners, healthcare cost with its public
share, per-worker figures, and the clamped sustainability index. -/
def calculateEconomicMetrics (env : Env) (population : List AgeGroup)
    (retirementAge : ℤ) (yearsFromBase : ℕ) (shift : ℤ) (unemp : ℚ) : EconomicMetrics :=
  let baseAvgSalary := env.econ.averageGrossSalary2024 * env.econ.annualMultiplier
  let baseAvgPension := env.econ.averagePension2024 * env.econ.annualMultiplier
  let wageInflationFactor := (1 + env.econ.annualGrowthRate) ^ yearsFromBase
  let healthcareInflationFactor := (1 + env.econ.healthcareAnnualInflation) ^ yearsFromBase
  let actualWorkforce := actualWorkforceOf env population retirementAge shift unemp
  let workingAgePop := workingAgePopOf population retirementAge
  let actualPensioners := actualPensionersOf env population retirementAge shift unemp
  let avgSalary := baseAvgSalary * wageInflationFactor
  let avgPension := baseAvgPension * wageInflationFactor
  let totalSSContributions := (actualWorkforce : ℚ) * avgSalary * env.econ.ssContributionRateTotal
  let totalPensionPayments := (actualPensioners : ℚ) * avgPension
  let ssBalance := totalSSContributions - totalPensionPayments
  let ssBalancePerWorker := if 0 < actualWorkforce then ssBalance / (actualWorkforce : ℚ) else 0
  let totalHealthcareCost := totalHealthcareCostOf env population healthcareInflationFactor
  let publicHealthcareCost := totalHealthcareCost * env.econ.publicShare
  let healthcareCostPerWorker :=
    if 0 < actualWorkforce then totalHealthcareCost / (actualWorkforce : ℚ) else 0
  let ssDeficit := max 0 (-ssBalance)
  let totalBurdenPerWorker :=
    if 0 < actualWorkforce then (ssDeficit + publicHealthcareCost) / (actualWorkforce : ℚ) else 0
  let totalFiscalBurden := ssDeficit + publicHealthcareCost
  let sustainabilityIndex := sustainabilityIndexOf env yearsFromBase actualWorkforce totalFiscalBurden
  let laborUtilizationRate :=
    if 0 < workingAgePop then (actualWorkforce : ℚ) / (workingAgePop : ℚ) else 0
  ⟨actualWorkforce, laborUtilizationRate, totalSSContributions, totalPensionPayments,
    ssBalance, ssBalancePerWorker, totalHealthcareCost, publicHealthcareCost,
    healthcareCostPerWorker, totalBurdenPerWorker, sustainabilityIndex⟩

/-- Exact (fractional) total births of one evolution step: for each cohort
of age 15 to 49, females times the ASFR scaled proportionally by the user
TFR against the baseline 1.40. -/
def totalBirthsExact (env : Env) (p : SimulationParams) (currentPop : List AgeGroup) : ℚ :=
  (currentPop.map (fun g =>
    if 15 ≤ g.age ∧ g.age ≤ 49 then
      (g.female : ℚ) * (getFertilityRate env g.age * (p.fertilityRate / (7/5)))
    else 0)).sum

/-- Rounded births of the step (the current revision uses `Math.round`). -/
def birthsOf (env : Env) (p : SimulationParams) (currentPop : List AgeGroup) : ℤ :=
  jsRound (totalBirthsExact env p currentPop)

/-- Male share of the births: `floor (births * (ratio / (1 + ratio)))`. -/
def maleBirthsOf (env : Env) (births : ℤ) : ℤ :=
  jsFloor ((births : ℚ) * (env.sexRatioAtBirth / (1 + env.sexRatioAtBirth)))

/-- One row of the pre-calculated per-age migration table. -/
structure MigEntry where
  age : ℕ
  male : ℤ
  female : ℤ
deriving DecidableEq

/-- Migration pre-calculation loop: walks the cohorts in order carrying the
fractional remainders; ages at or past 100 receive a zero entry and leave
the carries untouched.  Returns the entries together with the final
carries. -/
def migLoop (env : Env) (tM tF : ℚ) :
    List AgeGroup → ℚ → ℚ → List MigEntry × ℚ × ℚ
  | [], cM, cF => ([], cM, cF)
  | g :: rest, cM, cF =>
    if 100 ≤ g.age then
      let r := migLoop env tM tF rest cM cF
      (⟨g.age, 0, 0⟩ :: r.1, r.2)
    else
      let exactM := tM * getMigrationWeight env g.age Sex.male + cM
      let exactF := tF * getMigrationWeight env g.age Sex.female + cF
      let mM := jsFloor exactM
      let mF := jsFloor exactF
      let r := migLoop env tM tF rest (exactM - (mM : ℚ)) (exactF - (mF : ℚ))
      (⟨g.age, mM, mF⟩ :: r.1, r.2)

/-- Add the rounded final carries to the first entry of age 99, when one
exists (the source locates that entry with `findIndex` and mutates it in
place). -/
def addFinalTo99 (finalM finalF : ℤ) : List MigEntry → List MigEntry
  | [] => []
  | e :: rest =>
    if e.age = 99 then ⟨e.age, e.male + finalM, e.female + finalF⟩ :: rest
    else e :: addFinalTo99 finalM finalF rest

/-- Application of the remaining carry-over after the loop: both final
carries are rounded and, when either is non-zero, added to the entry of
age 99 (the last regular cohort) if one exists. -/
def applyFinalCarry (entries : List MigEntry) (cM cF : ℚ) : List MigEntry :=
  let finalM := jsRound cM
  let finalF := jsRound cF
  if finalM ≠ 0 ∨ finalF ≠ 0 then addFinalTo99 finalM finalF entries
  else entries

/-- Per-age migration amounts of one step, with the leftover carry applied. -/
def migEntriesFinal (env : Env) (p : SimulationParams) (currentPop : List AgeGroup) :
    List MigEntry :=
  let tM := p.netMigration * env.migSexProportionMale
  let tF := p.netMigration * (1 - env.migSexProportionMale)
  let r := migLoop env tM tF currentPop 0 0
  applyFinalCarry r.1 r.2.1 r.2.2

/-- Total migration distributed in one step: the sum of both sexes over the
final per-age entries (the source accumulates the same sum while building
and adjusting the table). -/
def migDistributedOf (entries : List MigEntry) : ℤ :=
  (entries.map (fun e => e.male + e.female)).sum

/-- Half-year migrant deaths for one sex of one cohort: migrants arrive
mid-year on average, so they are first thinned by
`round (migrants * (1 - sqrt (1 - qx)))`. -/
def migrantDeathsOf (env : Env) (qx : ℚ) (mig : ℤ) : ℤ :=
  jsRound ((mig : ℚ) * (1 - env.sqrtFn (1 - qx)))

/-- Cohort population of one sex after adding migrants and removing the
half-year migrant deaths. -/
def afterMigrationOf (env : Env) (qx : ℚ) (count mig : ℤ) : ℤ :=
  count + mig - migrantDeathsOf env qx mig

/-- Full-year cohort deaths of one sex: the post-migration population times
qx, rounded; the death carry-over is initialized to 0 inside the loop for
every cohort, so it is a literal zero here. -/
def cohortDeathsOf (env : Env) (qx : ℚ) (count mig : ℤ) : ℤ :=
  jsRound ((afterMigrationOf env qx count mig : ℚ) * qx + 0)

/-- Survivors of one sex of a regular cohort before the non-negativity
clamp. -/
def rawSurvOf (env : Env) (qx : ℚ) (count mig : ℤ) : ℤ :=
  afterMigrationOf env qx count mig - cohortDeathsOf env qx count mig

/-- Clamped survivors of one sex of a regular cohort. -/
def survOf (env : Env) (qx : ℚ) (count mig : ℤ) : ℤ :=
  max 0 (rawSurvOf env qx count mig)

/-- Terminal-bucket deaths of one sex: the cohort count times the age-100
rate, rounded (the death carry-over is reset to 0 for the terminal group). -/
def deaths100Of (qx : ℚ) (count : ℤ) : ℤ :=
  jsRound ((count : ℚ) * qx + 0)

/-- Terminal-bucket survivors of one sex, clamped at zero. -/
def surv100Of (qx : ℚ) (count : ℤ) : ℤ :=
  max 0 (count - deaths100Of qx count)

/-- State threaded through the aging loop: the aged regular cohorts in
order, the accumulating age-100 aggregate by sex, and the running death
total. -/
structure AgeLoopState where
  cohorts : List AgeGroup
  age100Male : ℤ
  age100Female : ℤ
  deaths : ℤ
deriving DecidableEq

/-- Aging loop over the cohorts paired with their migration entries: ages
at or past 100 feed the terminal aggregate with no migration, age 99
survivors also feed the aggregate, and every other cohort ages forward by
one year. -/
def ageLoop (env : Env) (p : SimulationParams) (yearsFromBase : ℕ) :
    List (AgeGroup × MigEntry) → AgeLoopState
  | [] => ⟨[], 0, 0, 0⟩
  | (g, e) :: rest =>
    let s := ageLoop env p yearsFromBase rest
    if 100 ≤ g.age then
      let qxM := getMortalityRate env 100 Sex.male yearsFromBase p.mortalityImprovement
      let qxF := getMortalityRate env 100 Sex.female yearsFromBase p.mortalityImprovement
      ⟨s.cohorts, surv100Of qxM g.male + s.age100Male, surv100Of qxF g.female + s.age100Female,
        deaths100Of qxM g.male + deaths100Of qxF g.female + s.deaths⟩
    else
      let qxM := getMortalityRate env g.age Sex.male yearsFromBase p.mortalityImprovement
      let qxF := getMortalityRate env g.age Sex.female yearsFromBase p.mortalityImprovement
      let svM := survOf env qxM g.male e.male
      let svF := survOf env qxF g.female e.female
      let d := cohortDeathsOf env qxM g.male e.male + cohortDeathsOf env qxF g.female e.female +
        migrantDeathsOf env qxM e.male + migrantDeathsOf env qxF e.female
      if g.age = 99 then
        ⟨s.cohorts, svM + s.age100Male, svF + s.age100Female, d + s.deaths⟩
      else
        ⟨⟨g.age + 1, svM, svF, svM + svF⟩ :: s.cohorts, s.age100Male, s.age100Female, d + s.deaths⟩

/-- Result of one evolution step: the next snapshot and the counters used
by the balance validator. -/
structure StepResult where
  nextPop : List AgeGroup
  births : ℤ
  deaths : ℤ
  migration : ℤ
deriving DecidableEq

/-- Source cohort-evolution step (the year-advance part of
`runSimulation`): newborn cohort from the rounded births split by the sex
ratio at birth, migration pre-calculation with carry-forward and final
application to age 99, aging with half-year migrant mortality and
full-year cohort mortality, and the terminal age-100 aggregate appended
only when it has any survivors. -/
def evolveStep (env : Env) (p : SimulationParams) (yearsFromBase : ℕ)
    (currentPop : List AgeGroup) : StepResult :=
  let births := birthsOf env p currentPop
  let maleBirths := maleBirthsOf env births
  let femaleBirths := births - maleBirths
  let newborn : AgeGroup := ⟨0, maleBirths, femaleBirths, births⟩
  let entries := migEntriesFinal env p currentPop
  let st := ageLoop env p yearsFromBase (currentPop.zip entries)
  let agg := st.age100Male + st.age100Female
  ⟨newborn :: st.cohorts ++ (if 0 < agg then [⟨100, st.age100Male, st.age100Female, agg⟩] else []),
    births, st.deaths, migDistributedOf entries⟩

/-- One element of the output series (interface `YearData`). -/
structure YearData where
  year : ℕ
  population : List AgeGroup
  totalPopulation : ℤ
  workingAgePop : ℤ
  retiredPop : ℤ
  childPop : ℤ
  oldAgeDependency : ℚ
  medianAge : ℚ
  economic : EconomicMetrics
deriving DecidableEq

/-- A balance-discrepancy warning emitted by the non-fatal validator. -/
structure BalanceWarning where
  year : ℕ
  expected : ℤ
  actual : ℤ
deriving DecidableEq

/-- Child population: cohorts of age below 15. -/
def childPopOf (pop : List AgeGroup) : ℤ :=
  ((pop.filter (fun g => decide ((g.age : ℤ) < 15))).map (fun g => g.total)).sum

/-- Working population: cohorts of age at least 15 and below the working
age limit. -/
def workingPopOf (pop : List AgeGroup) (limit : ℤ) : ℤ :=
  ((pop.filter (fun g => decide (15 ≤ (g.age : ℤ)) && decide ((g.age : ℤ) < limit))).map
    (fun g => g.total)).sum

/-- Retired population: cohorts of age at least the working age limit. -/
def retiredPopOf (pop : List AgeGroup) (limit : ℤ) : ℤ :=
  ((pop.filter (fun g => decide (limit ≤ (g.age : ℤ)))).map (fun g => g.total)).sum

/-- Reported total population: the sum of the three age bands, as computed
by the driver. -/
def totalPopulationOf (pop : List AgeGroup) (limit : ℤ) : ℤ :=
  childPopOf pop + workingPopOf pop limit + retiredPopOf pop limit

/-- Sum of the stored cohort totals of a snapshot. -/
def sumTotals (pop : List AgeGroup) : ℤ :=
  (pop.map (fun g => g.total)).sum

/-- Median-age loop with interpolation: walks the cohorts accumulating the
totals and stops at the first cohort whose cumulative total reaches half
the population, interpolating inside that cohort; 0 when the loop never
stops. -/
def medianLoop (halfPop : ℚ) : List AgeGroup → ℚ → ℚ
  | [], _ => 0
  | g :: rest, cumulative =>
    let c := cumulative + (g.total : ℚ)
    if halfPop ≤ c then
      (g.age : ℚ) + (if 0 < (g.total : ℚ) then (halfPop - cumulative) / (g.total : ℚ) else 0)
    else medianLoop halfPop rest c

/-- Per-year summary record assembled by the driver before the snapshot is
evolved: age-band aggregates, dependency ratio, interpolated median age and
the economic metrics; the stored population is a deep copy of the snapshot,
which an immutable value models as the snapshot itself. -/
def mkYearData (env : Env) (p : SimulationParams) (year : ℕ) (yearsFromBase : ℕ)
    (pop : List AgeGroup) : YearData :=
  let limit := p.retirementAge
  let childPop := childPopOf pop
  let workingPop := workingPopOf pop limit
  let retiredPop := retiredPopOf pop limit
  let totalPop := childPop + workingPop + retiredPop
  ⟨year, pop, totalPop, workingPop, retiredPop, childPop,
    (if 0 < workingPop then ((retiredPop : ℚ) / (workingPop : ℚ)) * 100 else 0),
    medianLoop ((totalPop : ℚ) / 2) pop 0,
    calculateEconomicMetrics env pop limit yearsFromBase
      p.workforceEntryAgeShift p.unemploymentAdjustment⟩

/-- Balance validation of one transition: a warning is produced when the
absolute difference between the actual and the expected next-year total
exceeds the tolerance of 500; the warning carries data only and never
interrupts the run. -/
def balanceCheck (year : ℕ) (totalPop births deaths migration nextTotal : ℤ) :
    List BalanceWarning :=
  let expected := totalPop + births - deaths + migration
  if 500 < (nextTotal - expected).natAbs then [⟨year, expected, nextTotal⟩] else []

/-- Year loop of the driver: appends the summary record for the current
snapshot, evolves the snapshot, runs the balance check, and continues with
the next year; the counter is the number of remaining iterations. -/
def simLoop (env : Env) (p : SimulationParams) (baseYear : ℕ) :
    ℕ → ℕ → List AgeGroup → List YearData × List BalanceWarning
  | _, 0, _ => ([], [])
  | year, Nat.succ n, pop =>
    let yearsFromBase := year - baseYear
    let record := mkYearData env p year yearsFromBase pop
    let step := evolveStep env p yearsFromBase pop
    let w := balanceCheck year record.totalPopulation step.births step.deaths step.migration
      (sumTotals step.nextPop)
    let r := simLoop env p baseYear (year + 1) n step.nextPop
    (record :: r.1, w ++ r.2)

/-- Domain bounds enforced by the pre-run parameter validation. -/
def paramsValid (p : SimulationParams) : Prop :=
  0 ≤ p.fertilityRate ∧ p.fertilityRate ≤ 10 ∧
  50 ≤ p.retirementAge ∧ p.retirementAge ≤ 80 ∧
  -500000 ≤ p.netMigration ∧ p.netMigration ≤ 500000 ∧
  -(1/20) ≤ p.mortalityImprovement.male ∧ p.mortalityImprovement.male ≤ 1/20 ∧
  -(1/20) ≤ p.mortalityImprovement.female ∧ p.mortalityImprovement.female ≤ 1/20

instance (p : SimulationParams) : Decidable (paramsValid p) := by
  unfold paramsValid
  infer_instance

/-- Source `runSimulation` (current revision): validates every parameter
against its documented bounds and aborts with a fatal error before any
computation when one is out of range; otherwise seeds the baseline
snapshot and runs the year loop from the start year through the end year
inclusive, returning the full series together with any balance warnings. -/
def runSimulation (env : Env) (startYear endYear : ℕ) (p : SimulationParams) :
    Except String (List YearData × List BalanceWarning) :=
  if p.fertilityRate < 0 ∨ 10 < p.fertilityRate then
    Except.error "Invalid fertility rate: must be between 0 and 10."
  else if p.retirementAge < 50 ∨ 80 < p.retirementAge then
    Except.error "Invalid retirement age: must be between 50 and 80."
  else if p.netMigration < -500000 ∨ 500000 < p.netMigration then
    Except.error "Invalid net migration: must be between -500,000 and 500,000."
  else if p.mortalityImprovement.male < -(1/20) ∨ 1/20 < p.mortalityImprovement.male then
    Except.error "Invalid male mortality improvement: must be between -0.05 and 0.05."
  else if p.mortalityImprovement.female < -(1/20) ∨ 1/20 < p.mortalityImprovement.female then
    Except.error "Invalid female mortality improvement: must be between -0.05 and 0.05."
  else
    Except.ok (simLoop env p startYear startYear (endYear + 1 - startYear) (generateInitialData env))

/-- Records of a run result; an aborted run contributes no records. -/
def resultsOf (r : Except String (List YearData × List BalanceWarning)) : List YearData :=
  match r with
  | Except.ok v => v.1
  | Except.error _ => []

/-- Ages of a snapshot, in order. -/
def agesOf (pop : List AgeGroup) : List ℕ :=
  pop.map (fun g => g.age)

/-- Sum of the male migration amounts of the per-age table. -/
def migMaleSum (entries : List MigEntry) : ℤ :=
  (entries.map (fun e => e.male)).sum

/-- Sum of the female migration amounts of the per-age table. -/
def migFemaleSum (entries : List MigEntry) : ℤ :=
  (entries.map (fun e => e.female)).sum

/-- Condition that the non-negativity clamps of one evolution step never
trigger: every pre-clamp survivor count of every cohort (both sexes,
regular and terminal) is non-negative. -/
def noClamp (env : Env) (p : SimulationParams) (yearsFromBase : ℕ)
    (pairs : List (AgeGroup × MigEntry)) : Prop :=
  ∀ pe ∈ pairs,
    if 100 ≤ pe.1.age then
      0 ≤ pe.1.male - deaths100Of
          (getMortalityRate env 100 Sex.male yearsFromBase p.mortalityImprovement) pe.1.male ∧
      0 ≤ pe.1.female - deaths100Of
          (getMortalityRate env 100 Sex.female yearsFromBase p.mortalityImprovement) pe.1.female
    else
      0 ≤ rawSurvOf env
          (getMortalityRate env pe.1.age Sex.male yearsFromBase p.mortalityImprovement)
          pe.1.male pe.2.male ∧
      0 ≤ rawSurvOf env
          (getMortalityRate env pe.1.age Sex.female yearsFromBase p.mortalityImprovement)
          pe.1.female pe.2.female

instance (env : Env) (p : SimulationParams) (y : ℕ) (pairs : List (AgeGroup × MigEntry)) :
    Decidable (noClamp env p y pairs) := by
  unfold noClamp
  infer_instance

/-- Survivor rule stated by the spec for regular cohorts, modelled from
the spec words of section 4.2 step 3: migrants are added to the cohort
before mortality is applied and the same full-year mortality probability
thins the incoming migrants together with the existing members, with no
separate half-year migrant mortality. -/
def specRuleSurvivors (qx : ℚ) (count mig : ℤ) : ℤ :=
  max 0 (count + mig - jsRound (((count + mig : ℤ) : ℚ) * qx))

/-- Claim that the evolution step follows the spec survivor rule for every
non-terminal cohort: the aged-forward cohort of every regular cohort would
carry the counts given by `specRuleSurvivors`. -/
def evolveFollowsSpecRule : Prop :=
  ∀ (env : Env) (p : SimulationParams) (yearsFromBase : ℕ) (pop : List AgeGroup)
    (g : AgeGroup) (e : MigEntry),
    (g, e) ∈ pop.zip (migEntriesFinal env p pop) → g.age < 99 →
    (AgeGroup.mk (g.age + 1)
      (specRuleSurvivors
        (getMortalityRate env g.age Sex.male yearsFromBase p.mortalityImprovement) g.male e.male)
      (specRuleSurvivors
        (getMortalityRate env g.age Sex.female yearsFromBase p.mortalityImprovement)
        g.female e.female)
      (specRuleSurvivors
        (getMortalityRate env g.age Sex.male yearsFromBase p.mortalityImprovement) g.male e.male +
       specRuleSurvivors
        (getMortalityRate env g.age Sex.female yearsFromBase p.mortalityImprovement)
        g.female e.female))
      ∈ (evolveStep env p yearsFromBase pop).nextPop

/-- Male migration age profile from `migrationProfile` (the band strings
are already parsed: the final band `80+` spans ages 80 through 100).  The
raw weights sum to 843/1000, which the lookup normalizes away. -/
def migProfileMaleData : List AgeBand :=
  [⟨0, 4, 25/1000⟩, ⟨5, 9, 20/1000⟩, ⟨10, 14, 15/1000⟩, ⟨15, 19, 30/1000⟩,
   ⟨20, 24, 90/1000⟩, ⟨25, 29, 140/1000⟩, ⟨30, 34, 150/1000⟩, ⟨35, 39, 120/1000⟩,
   ⟨40, 44, 85/1000⟩, ⟨45, 49, 55/1000⟩, ⟨50, 54, 35/1000⟩, ⟨55, 59, 25/1000⟩,
   ⟨60, 64, 20/1000⟩, ⟨65, 69, 15/1000⟩, ⟨70, 74, 10/1000⟩, ⟨75, 79, 5/1000⟩,
   ⟨80, 100, 3/1000⟩]

/-- Female migration age profile from `migrationProfile`; the raw weights
sum to 825/1000. -/
def migProfileFemaleData : List AgeBand :=
  [⟨0, 4, 23/1000⟩, ⟨5, 9, 18/1000⟩, ⟨10, 14, 14/1000⟩, ⟨15, 19, 28/1000⟩,
   ⟨20, 24, 95/1000⟩, ⟨25, 29, 145/1000⟩, ⟨30, 34, 145/1000⟩, ⟨35, 39, 115/1000⟩,
   ⟨40, 44, 80/1000⟩, ⟨45, 49, 50/1000⟩, ⟨50, 54, 32/1000⟩, ⟨55, 59, 22/1000⟩,
   ⟨60, 64, 18/1000⟩, ⟨65, 69, 15/1000⟩, ⟨70, 74, 12/1000⟩, ⟨75, 79, 8/1000⟩,
   ⟨80, 100, 5/1000⟩]

/-- ASFR table from `fertilityRates` (age, births per thousand women). -/
def asfrData : List (ℕ × ℚ) :=
  [(15, 18/10), (16, 35/10), (17, 58/10), (18, 85/10), (19, 115/10),
   (20, 15), (21, 19), (22, 235/10), (23, 285/10), (24, 34),
   (25, 40), (26, 465/10), (27, 53), (28, 595/10), (29, 655/10),
   (30, 705/10), (31, 74), (32, 755/10), (33, 75), (34, 725/10),
   (35, 68), (36, 62), (37, 55), (38, 47), (39, 39),
   (40, 31), (41, 235/10), (42, 17), (43, 115/10), (44, 7),
   (45, 4), (46, 2), (47, 9/10), (48, 4/10), (49, 1/10)]

/-- Placeholder economic parameters for concrete test environments. -/
def econTrivial : EconParams :=
  ⟨0, 0, 0, 0, 0, 0, 0, 0, 0, 0, [], 0, 0, 0, 0, 0⟩

/-- Minimal test environment: certain death at every age, no fertility
entries, no migration bands, one baseline row. -/
def envW : Env :=
  ⟨fun _ => 1, fun _ => 1, [], 21/20, [], [], 12/25, fun _ => 0, [⟨0, 2, 3⟩], econTrivial⟩

/-- Test environment for the migrant-mortality analysis: every qx is 3/4,
so the half-year formula evaluates the square root at 1/4; the `sqrtFn`
field returns the exact value 1/2 there (and 0 elsewhere, unused).  Each
profile has the single band of age 30 with weight 1, and the migration sex
split is one half. -/
def env0 : Env :=
  ⟨fun _ => 3/4, fun _ => 3/4, [], 21/20, [⟨30, 30, 1⟩], [⟨30, 30, 1⟩], 1/2,
   fun q => if q = 1/4 then 1/2 else 0, [], econTrivial⟩

/-- Test environment with the real migration profile and fertility table. -/
def envData : Env :=
  ⟨fun _ => 1, fun _ => 1, asfrData, 21/20, migProfileMaleData, migProfileFemaleData,
   12/25, fun _ => 0, [], econTrivial⟩

/-- Baseline-like valid parameters used by witnesses. -/
def p0 : SimulationParams :=
  ⟨66, 7/5, 20, ⟨1/100, 1/125⟩, 0, 0⟩

/-- Valid parameters with zero net migration. -/
def p1 : SimulationParams :=
  ⟨66, 7/5, 0, ⟨1/100, 1/125⟩, 0, 0⟩

/-- Valid parameters with the documented baseline net migration 110000. -/
def p110 : SimulationParams :=
  ⟨66, 7/5, 110000, ⟨1/100, 1/125⟩, 0, 0⟩

/-- Parameters with an out-of-range retirement age. -/
def pBad : SimulationParams :=
  ⟨45, 7/5, 110000, ⟨1/100, 1/125⟩, 0, 0⟩

/-- Snapshot with one cohort of every age 0 through 100 and zero counts. -/
def pop1 : List AgeGroup :=
  (List.range 101).map (fun a => ⟨a, 0, 0, 0⟩)

/-- Single-cohort snapshot used by the migrant-mortality counterexample. -/
def pop0 : List AgeGroup :=
  [⟨30, 100, 0, 100⟩]

/-- First record of the one-year witness run. -/
def r0 : YearData :=
  mkYearData envW p0 2024 0 (generateInitialData envW)

/-- Sum of male plus female counts over a snapshot. -/
def sumMF (pop : List AgeGroup) : ℤ :=
  (pop.map (fun g => g.male + g.female)).sum

/-- Mass entering the aging loop from a list of cohort and migration-entry
pairs: cohort members of both sexes plus, for regular cohorts only, the
migration amounts (the loop ignores the migration entry of a terminal
cohort). -/
def pairsMass (pairs : List (AgeGroup × MigEntry)) : ℤ :=
  (pairs.map (fun pe =>
    if 100 ≤ pe.1.age then pe.1.male + pe.1.female
    else pe.1.male + pe.1.female + pe.2.male + pe.2.female)).sum

/-- Per-age migration weight mass of one sex over the regular cohorts of a
snapshot. -/
def wSum (env : Env) (sex : Sex) (pop : List AgeGroup) : ℚ :=
  (pop.map (fun g => if 100 ≤ g.age then 0 else getMigrationWeight env g.age sex)).sum

/-- Relation between a cohort and its migration entry: the ages agree and
a terminal cohort carries a zero entry. -/
def entryRel (g : AgeGroup) (e : MigEntry) : Prop :=
  e.age = g.age ∧ (100 ≤ g.age → e.male = 0 ∧ e.female = 0)

/-- Property that a snapshot contains each age 0 through 100 exactly once. -/
def coversAges0To100 (pop : List AgeGroup) : Prop :=
  ∀ a : ℕ, a ≤ 100 → (agesOf pop).count a = 1

instance (pop : List AgeGroup) : Decidable (coversAges0To100 pop) := by
  unfold coversAges0To100
  infer_instance

/-! Theorems.  Helper lemmas come first, the claim theorems afterwards. -/

theorem sustainabilityIndexOf_of_not_pos (env : Env) (y : ℕ) (wf : ℤ) (b : ℚ)
    (h : ¬ 0 < gdpProxyOf env y wf) : sustainabilityIndexOf env y wf b = 0 := by
  unfold sustainabilityIndexOf
  rw [if_neg h]

theorem calc_sustainability_eq (env : Env) (pop : List AgeGroup) (retAge : ℤ) (y : ℕ)
    (shift : ℤ) (unemp : ℚ) :
    ∃ burden : ℚ,
      (calculateEconomicMetrics env pop retAge y shift unemp).sustainabilityIndex =
        sustainabilityIndexOf env y (actualWorkforceOf env pop retAge shift unemp) burden := by
  exact ⟨_, rfl⟩

theorem calc_workforce_eq (env : Env) (pop : List AgeGroup) (retAge : ℤ) (y : ℕ)
    (shift : ℤ) (unemp : ℚ) :
    (calculateEconomicMetrics env pop retAge y shift unemp).actualWorkforce =
      actualWorkforceOf env pop retAge shift unemp :=
  rfl

/-- C4: in the economic-metrics calculation, a zero GDP proxy — in
particular a zero rounded actual workforce — yields the sustainability
index 0 (critical); the guarded branch never divides by the proxy. -/
theorem c4_zero_gdp_critical (env : Env) (pop : List AgeGroup) (retAge : ℤ) (y : ℕ)
    (shift : ℤ) (unemp : ℚ) :
    (gdpProxyOf env y (calculateEconomicMetrics env pop retAge y shift unemp).actualWorkforce = 0 →
      (calculateEconomicMetrics env pop retAge y shift unemp).sustainabilityIndex = 0) ∧
    ((calculateEconomicMetrics env pop retAge y shift unemp).actualWorkforce = 0 →
      (calculateEconomicMetrics env pop retAge y shift unemp).sustainabilityIndex = 0) := by
  constructor
  · intro h
    obtain ⟨b, hb⟩ := calc_sustainability_eq env pop retAge y shift unemp
    rw [hb]
    apply sustainabilityIndexOf_of_not_pos
    rw [calc_workforce_eq] at h
    rw [h]
    exact lt_irrefl 0
  · intro h
    obtain ⟨b, hb⟩ := calc_sustainability_eq env pop retAge y shift unemp
    rw [hb]
    apply sustainabilityIndexOf_of_not_pos
    rw [calc_workforce_eq] at h
    rw [h]
    unfold gdpProxyOf
    norm_num

/-- Witness for C4 at a concrete input: the empty snapshot has rounded
workforce 0, hence sustainability index 0. -/
theorem c4_witness :
    (calculateEconomicMetrics envW [] 66 0 0 0).sustainabilityIndex = 0 :=
  (c4_zero_gdp_critical envW [] 66 0 0 0).2
    (by with_unfolding_all exact of_decide_eq_true rfl)

/-- C3: at every age of at least 100, the mortality rate is the table
value at age 100 clamped to 1, with no improvement factor applied, for
every sex, elapsed-years count and improvement pair. -/
theorem c3_terminal_no_improvement (env : Env) (age : ℕ) (sex : Sex) (yearsFromBase : ℕ)
    (mi : MortalityImprovementRate) (h : 100 ≤ age) :
    getMortalityRate env age sex yearsFromBase mi = min (qxTable env sex 100) 1 := by
  simp only [getMortalityRate]
  rw [min_eq_right h, if_pos h]

/-- Witness for C3 at age 100 and age 170. -/
theorem c3_witness :
    getMortalityRate envW 100 Sex.male 7 ⟨1/100, 1/125⟩ = min (qxTable envW Sex.male 100) 1 ∧
    getMortalityRate envW 170 Sex.female 40 ⟨-(1/50), 1/125⟩ = min (qxTable envW Sex.female 100) 1 :=
  ⟨c3_terminal_no_improvement envW 100 Sex.male 7 ⟨1/100, 1/125⟩ (by decide),
   c3_terminal_no_improvement envW 170 Sex.female 40 ⟨-(1/50), 1/125⟩ (by decide)⟩

/-- C2: the driver fails fast with a fatal error, producing no records,
whenever some parameter is outside its documented bounds, and returns the
full result for every in-bounds parameter set. -/
theorem c2_validation (env : Env) (startYear endYear : ℕ) (p : SimulationParams) :
    (¬ paramsValid p → (∃ msg, runSimulation env startYear endYear p = Except.error msg) ∧
      resultsOf (runSimulation env startYear endYear p) = []) ∧
    (paramsValid p → ∃ v, runSimulation env startYear endYear p = Except.ok v) := by
  constructor
  · intro h
    unfold runSimulation
    split_ifs with h1 h2 h3 h4 h5
    · exact ⟨⟨_, rfl⟩, rfl⟩
    · exact ⟨⟨_, rfl⟩, rfl⟩
    · exact ⟨⟨_, rfl⟩, rfl⟩
    · exact ⟨⟨_, rfl⟩, rfl⟩
    · exact ⟨⟨_, rfl⟩, rfl⟩
    · exfalso
      apply h
      push_neg at h1 h2 h3 h4 h5
      exact ⟨h1.1, h1.2, h2.1, h2.2, h3.1, h3.2, h4.1, h4.2, h5.1, h5.2⟩
  · intro h
    obtain ⟨hf1, hf2, hr1, hr2, hn1, hn2, hm1, hm2, hw1, hw2⟩ := h
    unfold runSimulation
    split_ifs with h1 h2 h3 h4 h5
    · rcases h1 with h1 | h1 <;> linarith
    · rcases h2 with h2 | h2 <;> omega
    · rcases h3 with h3 | h3 <;> linarith
    · rcases h4 with h4 | h4 <;> linarith
    · rcases h5 with h5 | h5 <;> linarith
    · exact ⟨_, rfl⟩

/-- Witness for C2: a retirement age of 45 is rejected with an error and
no records, while the baseline parameters yield a successful run. -/
theorem c2_witness :
    ((∃ msg, runSimulation envW 2024 2030 pBad = Except.error msg) ∧
      resultsOf (runSimulation envW 2024 2030 pBad) = []) ∧
    (∃ v, runSimulation envW 2024 2030 p0 = Except.ok v) :=
  ⟨(c2_validation envW 2024 2030 pBad).1 (by with_unfolding_all exact of_decide_eq_true rfl),
   (c2_validation envW 2024 2030 p0).2 (by with_unfolding_all exact of_decide_eq_true rfl)⟩

theorem getMortalityRate_mem_unit (env : Env) (mi : MortalityImprovementRate)
    (hqM : ∀ a, 0 ≤ env.qxMale a) (hqF : ∀ a, 0 ≤ env.qxFemale a)
    (hM : mi.male ≤ 1/20) (hF : mi.female ≤ 1/20)
    (age : ℕ) (sex : Sex) (y : ℕ) :
    0 ≤ getMortalityRate env age sex y mi ∧ getMortalityRate env age sex y mi ≤ 1 := by
  have hq : 0 ≤ qxTable env sex (min age 100) := by
    cases sex
    · exact hqM _
    · exact hqF _
  have him : 0 ≤ (1 - improvementOf mi sex) ^ y := by
    apply pow_nonneg
    cases sex
    · simp only [improvementOf]
      linarith
    · simp only [improvementOf]
      linarith
  constructor
  · unfold getMortalityRate
    apply le_min _ (by norm_num)
    split_ifs
    · exact hq
    · exact mul_nonneg hq him
  · exact min_le_right _ _

theorem getEmploymentRate_mem_unit (env : Env) (age shift : ℤ) (unemp : ℚ) :
    0 ≤ getEmploymentRate env age shift unemp ∧ getEmploymentRate env age shift unemp ≤ 1 := by
  unfold getEmploymentRate
  refine ⟨le_max_left 0 _, max_le (by norm_num) (min_le_left 1 _)⟩

theorem sustainabilityIndexOf_mem_range (env : Env) (y : ℕ) (wf : ℤ) (b : ℚ) :
    0 ≤ sustainabilityIndexOf env y wf b ∧ sustainabilityIndexOf env y wf b ≤ 100 := by
  unfold sustainabilityIndexOf
  split_ifs
  · exact ⟨le_max_left 0 _, max_le (by norm_num) (min_le_left 100 _)⟩
  · norm_num

/-- C9: with a non-negative life table and mortality-improvement rates in
their documented range, the mortality probability lies in the unit
interval; the employment rate always lies in the unit interval; the
sustainability index always lies between 0 and 100. -/
theorem c9_rate_clamps (env : Env) (mi : MortalityImprovementRate)
    (hqM : ∀ a, 0 ≤ env.qxMale a) (hqF : ∀ a, 0 ≤ env.qxFemale a)
    (hM : mi.male ≤ 1/20) (hF : mi.female ≤ 1/20) :
    (∀ (age : ℕ) (sex : Sex) (y : ℕ),
      0 ≤ getMortalityRate env age sex y mi ∧ getMortalityRate env age sex y mi ≤ 1) ∧
    (∀ (age shift : ℤ) (unemp : ℚ),
      0 ≤ getEmploymentRate env age shift unemp ∧ getEmploymentRate env age shift unemp ≤ 1) ∧
    (∀ (pop : List AgeGroup) (retAge : ℤ) (y : ℕ) (shift : ℤ) (unemp : ℚ),
      0 ≤ (calculateEconomicMetrics env pop retAge y shift unemp).sustainabilityIndex ∧
      (calculateEconomicMetrics env pop retAge y shift unemp).sustainabilityIndex ≤ 100) := by
  refine ⟨fun age sex y => getMortalityRate_mem_unit env mi hqM hqF hM hF age sex y,
    fun age shift unemp => getEmploymentRate_mem_unit env age shift unemp,
    fun pop retAge y shift unemp => ?_⟩
  obtain ⟨b, hb⟩ := calc_sustainability_eq env pop retAge y shift unemp
  rw [hb]
  exact sustainabilityIndexOf_mem_range env y _ b

/-- Witness for C9 at concrete inputs. -/
theorem c9_witness :
    (0 ≤ getMortalityRate envW 37 Sex.male 11 ⟨1/100, 1/125⟩ ∧
      getMortalityRate envW 37 Sex.male 11 ⟨1/100, 1/125⟩ ≤ 1) ∧
    (0 ≤ getEmploymentRate envW 40 2 (1/10) ∧ getEmploymentRate envW 40 2 (1/10) ≤ 1) ∧
    (0 ≤ (calculateEconomicMetrics envW [⟨40, 7, 5, 12⟩] 66 3 0 0).sustainabilityIndex ∧
      (calculateEconomicMetrics envW [⟨40, 7, 5, 12⟩] 66 3 0 0).sustainabilityIndex ≤ 100) := by
  have h := c9_rate_clamps envW ⟨1/100, 1/125⟩
    (fun a => by norm_num [envW]) (fun a => by norm_num [envW]) (by norm_num) (by norm_num)
  exact ⟨h.1 37 Sex.male 11, h.2.1 40 2 (1/10), h.2.2 [⟨40, 7, 5, 12⟩] 66 3 0 0⟩

theorem ageLoop_cohort_mem (env : Env) (p : SimulationParams) (y : ℕ) :
    ∀ (pairs : List (AgeGroup × MigEntry)) (g : AgeGroup) (e : MigEntry),
      (g, e) ∈ pairs → g.age < 99 →
      (AgeGroup.mk (g.age + 1)
        (survOf env (getMortalityRate env g.age Sex.male y p.mortalityImprovement) g.male e.male)
        (survOf env (getMortalityRate env g.age Sex.female y p.mortalityImprovement)
          g.female e.female)
        (survOf env (getMortalityRate env g.age Sex.male y p.mortalityImprovement) g.male e.male +
          survOf env (getMortalityRate env g.age Sex.female y p.mortalityImprovement)
            g.female e.female)) ∈ (ageLoop env p y pairs).cohorts := by
  intro pairs
  induction pairs with
  | nil =>
    intro g e hmem
    exact absurd hmem (List.not_mem_nil _)
  | cons pe rest ih =>
    intro g e hmem hage
    obtain ⟨g0, e0⟩ := pe
    rcases List.mem_cons.mp hmem with heq | htail
    · obtain ⟨hg, he⟩ := Prod.mk.injEq .. ▸ heq
      subst hg
      subst he
      have h100 : ¬ 100 ≤ g.age := by omega
      have h99 : ¬ g.age = 99 := by omega
      simp only [ageLoop, if_neg h100, if_neg h99]
      exact List.mem_cons_self _ _
    · have hin := ih g e htail hage
      simp only [ageLoop]
      split_ifs
      · exact hin
      · exact hin
      · exact List.mem_cons_of_mem _ hin

/-- C5 amended: for every non-terminal cohort, the migrants of the year
are added before mortality, but they are first thinned by the separate
half-year probability (the rounded `mig * (1 - sqrt (1 - qx))` term inside
`survOf`), and the combined cohort is then thinned by the full-year
probability; the resulting counts age forward into the next snapshot. -/
theorem c5_migrants_halfyear_then_full (env : Env) (p : SimulationParams) (y : ℕ)
    (pop : List AgeGroup) (g : AgeGroup) (e : MigEntry)
    (hmem : (g, e) ∈ pop.zip (migEntriesFinal env p pop)) (hage : g.age < 99) :
    (AgeGroup.mk (g.age + 1)
      (survOf env (getMortalityRate env g.age Sex.male y p.mortalityImprovement) g.male e.male)
      (survOf env (getMortalityRate env g.age Sex.female y p.mortalityImprovement)
        g.female e.female)
      (survOf env (getMortalityRate env g.age Sex.male y p.mortalityImprovement) g.male e.male +
        survOf env (getMortalityRate env g.age Sex.female y p.mortalityImprovement)
          g.female e.female)) ∈ (evolveStep env p y pop).nextPop := by
  have h1 := ageLoop_cohort_mem env p y (pop.zip (migEntriesFinal env p pop)) g e hmem hage
  simp only [evolveStep]
  exact List.mem_cons_of_mem _ (List.mem_append_left _ h1)

/-- C5 counterexample: the evolution step does not follow the
no-half-year-mortality survivor rule stated by the spec.  At age 30 with
qx = 3/4, a cohort of 100 men receiving 10 male migrants keeps 26 men in
the code (5 migrants die the half-year death first), while the spec rule
keeps 27; the female counts differ likewise. -/
theorem c5_counterexample : ¬ evolveFollowsSpecRule := by
  intro h
  have hmem : ((⟨30, 100, 0, 100⟩ : AgeGroup), (⟨30, 10, 10⟩ : MigEntry)) ∈
      pop0.zip (migEntriesFinal env0 p0 pop0) := by
    with_unfolding_all exact of_decide_eq_true rfl
  have hc := h env0 p0 0 pop0 ⟨30, 100, 0, 100⟩ ⟨30, 10, 10⟩ hmem (by decide)
  exact absurd hc (by with_unfolding_all exact of_decide_eq_true rfl)

/-- Witness for the amended C5 at the same concrete input. -/
theorem c5_witness :
    (AgeGroup.mk 31
      (survOf env0 (getMortalityRate env0 30 Sex.male 0 p0.mortalityImprovement) 100 10)
      (survOf env0 (getMortalityRate env0 30 Sex.female 0 p0.mortalityImprovement) 0 10)
      (survOf env0 (getMortalityRate env0 30 Sex.male 0 p0.mortalityImprovement) 100 10 +
        survOf env0 (getMortalityRate env0 30 Sex.female 0 p0.mortalityImprovement) 0 10)) ∈
      (evolveStep env0 p0 0 pop0).nextPop :=
  c5_migrants_halfyear_then_full env0 p0 0 pop0 ⟨30, 100, 0, 100⟩ ⟨30, 10, 10⟩
    (by with_unfolding_all exact of_decide_eq_true rfl) (by decide)

theorem migLoop_ages (env : Env) (tM tF : ℚ) :
    ∀ (l : List AgeGroup) (cM cF : ℚ),
      ((migLoop env tM tF l cM cF).1).map (fun e => e.age) = agesOf l
  | [], _, _ => rfl
  | g :: rest, cM, cF => by
    unfold migLoop
    split_ifs <;> simp [agesOf, migLoop_ages env tM tF rest]

theorem addFinalTo99_ages (finalM finalF : ℤ) :
    ∀ es : List MigEntry,
      (addFinalTo99 finalM finalF es).map (fun e => e.age) = es.map (fun e => e.age)
  | [] => rfl
  | e :: rest => by
    unfold addFinalTo99
    split_ifs <;> simp [addFinalTo99_ages finalM finalF rest]

theorem migEntriesFinal_ages (env : Env) (p : SimulationParams) (pop : List AgeGroup) :
    (migEntriesFinal env p pop).map (fun e => e.age) = agesOf pop := by
  simp only [migEntriesFinal, applyFinalCarry]
  split_ifs
  · rw [addFinalTo99_ages]
    exact migLoop_ages env _ _ pop 0 0
  · exact migLoop_ages env _ _ pop 0 0

theorem migEntriesFinal_length (env : Env) (p : SimulationParams) (pop : List AgeGroup) :
    (migEntriesFinal env p pop).length = pop.length := by
  have h := congrArg List.length (migEntriesFinal_ages env p pop)
  simpa [agesOf] using h

theorem ageLoop_cohorts_ages (env : Env) (p : SimulationParams) (y : ℕ) :
    ∀ (pop : List AgeGroup) (entries : List MigEntry), entries.length = pop.length →
      agesOf (ageLoop env p y (pop.zip entries)).cohorts =
        ((agesOf pop).filter (fun a => decide (a ≤ 98))).map (fun a => a + 1) := by
  intro pop
  induction pop with
  | nil =>
    intro entries _
    simp [agesOf, ageLoop]
  | cons g rest ih =>
    intro entries hlen
    cases entries with
    | nil => simp at hlen
    | cons e es =>
      simp only [List.length_cons, Nat.succ.injEq] at hlen
      rw [List.zip_cons_cons]
      by_cases h100 : 100 ≤ g.age
      · have hn : ¬ g.age ≤ 98 := by omega
        simp only [ageLoop, if_pos h100]
        rw [ih es hlen]
        simp [agesOf, List.filter_cons, hn]
      · by_cases h99 : g.age = 99
        · have hn : ¬ g.age ≤ 98 := by omega
          simp only [ageLoop, if_neg h100, if_pos h99]
          rw [ih es hlen]
          simp [agesOf, List.filter_cons, hn]
        · have h98 : g.age ≤ 98 := by omega
          simp only [ageLoop, if_neg h100, if_neg h99]
          simp only [agesOf, List.map_cons]
          rw [show (ageLoop env p y (rest.zip es)).cohorts.map (fun g => g.age) =
            agesOf (ageLoop env p y (rest.zip es)).cohorts from rfl, ih es hlen]
          simp [agesOf, List.filter_cons, h98]

/-- C7 amended: from a snapshot covering the ages 0 through 100, the
evolution step produces a snapshot whose ages are exactly 0 through 99 in
order, followed by the terminal age 100 exactly when the age-100 aggregate
has a positive count; the empty terminal cohort is omitted. -/
theorem c7_ages_of_next_snapshot (env : Env) (p : SimulationParams) (y : ℕ)
    (pop : List AgeGroup) (hp : agesOf pop = List.range 101) :
    agesOf (evolveStep env p y pop).nextPop =
      List.range 100 ++
        (if 0 < (ageLoop env p y (pop.zip (migEntriesFinal env p pop))).age100Male +
            (ageLoop env p y (pop.zip (migEntriesFinal env p pop))).age100Female
         then [100] else []) := by
  have hc := ageLoop_cohorts_ages env p y pop (migEntriesFinal env p pop)
    (migEntriesFinal_length env p pop)
  rw [hp] at hc
  have hfilter : ((List.range 101).filter (fun a => decide (a ≤ 98))).map (fun a => a + 1) =
      (List.range 99).map (fun a => a + 1) := by decide
  rw [hfilter] at hc
  have hrange : List.range 100 = 0 :: (List.range 99).map (fun a => a + 1) := by decide
  simp only [evolveStep, agesOf, List.map_cons, List.map_append, apply_ite (List.map
    (fun (g : AgeGroup) => g.age)), List.map_cons, List.map_nil]
  rw [hrange]
  simp only [List.cons_append]
  simp only [agesOf] at hc
  rw [hc]

set_option maxRecDepth 100000 in
/-- C7 counterexample: a valid snapshot covering every age 0 through 100
(with all counts zero) evolves, under zero migration, into a snapshot that
omits the empty terminal age-100 cohort, so the produced snapshot does not
contain every age 0 through 100. -/
theorem c7_counterexample :
    coversAges0To100 pop1 ∧ ¬ coversAges0To100 (evolveStep envW p1 0 pop1).nextPop := by
  constructor
  · with_unfolding_all exact of_decide_eq_true rfl
  · with_unfolding_all exact of_decide_eq_true rfl

set_option maxRecDepth 100000 in
/-- Witness for the amended C7 at the concrete all-zero snapshot. -/
theorem c7_witness :
    agesOf (evolveStep envW p1 0 pop1).nextPop =
      List.range 100 ++
        (if 0 < (ageLoop envW p1 0 (pop1.zip (migEntriesFinal envW p1 pop1))).age100Male +
            (ageLoop envW p1 0 (pop1.zip (migEntriesFinal envW p1 pop1))).age100Female
         then [100] else []) :=
  c7_ages_of_next_snapshot envW p1 0 pop1 (by with_unfolding_all exact of_decide_eq_true rfl)

theorem migLoop_sums (env : Env) (tM tF : ℚ) :
    ∀ (l : List AgeGroup) (cM cF : ℚ),
      (migMaleSum (migLoop env tM tF l cM cF).1 : ℚ) =
        tM * wSum env Sex.male l + cM - (migLoop env tM tF l cM cF).2.1 ∧
      (migFemaleSum (migLoop env tM tF l cM cF).1 : ℚ) =
        tF * wSum env Sex.female l + cF - (migLoop env tM tF l cM cF).2.2
  | [], cM, cF => by
    simp [migLoop, migMaleSum, migFemaleSum, wSum]
  | g :: rest, cM, cF => by
    by_cases h100 : 100 ≤ g.age
    · have ih := migLoop_sums env tM tF rest cM cF
      simp only [migLoop, if_pos h100, migMaleSum, migFemaleSum, wSum, List.map_cons,
        List.sum_cons, if_pos h100] at ih ⊢
      push_cast
      push_cast at ih
      constructor
      · rw [ih.1]
        ring
      · rw [ih.2]
        ring
    · have ih := migLoop_sums env tM tF rest
        (tM * getMigrationWeight env g.age Sex.male + cM -
          (jsFloor (tM * getMigrationWeight env g.age Sex.male + cM) : ℚ))
        (tF * getMigrationWeight env g.age Sex.female + cF -
          (jsFloor (tF * getMigrationWeight env g.age Sex.female + cF) : ℚ))
      simp only [migLoop, if_neg h100, migMaleSum, migFemaleSum, wSum, List.map_cons,
        List.sum_cons, if_neg h100] at ih ⊢
      push_cast
      push_cast at ih
      constructor
      · rw [ih.1]
        ring
      · rw [ih.2]
        ring

theorem migLoop_carry_bounds (env : Env) (tM tF : ℚ) :
    ∀ (l : List AgeGroup) (cM cF : ℚ),
      (0 ≤ cM → cM < 1 →
        0 ≤ (migLoop env tM tF l cM cF).2.1 ∧ (migLoop env tM tF l cM cF).2.1 < 1) ∧
      (0 ≤ cF → cF < 1 →
        0 ≤ (migLoop env tM tF l cM cF).2.2 ∧ (migLoop env tM tF l cM cF).2.2 < 1)
  | [], cM, cF => by
    simp only [migLoop]
    exact ⟨fun h0 h1 => ⟨h0, h1⟩, fun h0 h1 => ⟨h0, h1⟩⟩
  | g :: rest, cM, cF => by
    by_cases h100 : 100 ≤ g.age
    · have ih := migLoop_carry_bounds env tM tF rest cM cF
      simp only [migLoop, if_pos h100]
      exact ih
    · have ih := migLoop_carry_bounds env tM tF rest
        (tM * getMigrationWeight env g.age Sex.male + cM -
          (jsFloor (tM * getMigrationWeight env g.age Sex.male + cM) : ℚ))
        (tF * getMigrationWeight env g.age Sex.female + cF -
          (jsFloor (tF * getMigrationWeight env g.age Sex.female + cF) : ℚ))
      simp only [migLoop, if_neg h100]
      constructor
      · intro _ _
        apply ih.1
        · unfold jsFloor
          have := Int.floor_le (tM * getMigrationWeight env g.age Sex.male + cM)
          linarith
        · unfold jsFloor
          have := Int.lt_floor_add_one (tM * getMigrationWeight env g.age Sex.male + cM)
          linarith
      · intro _ _
        apply ih.2
        · unfold jsFloor
          have := Int.floor_le (tF * getMigrationWeight env g.age Sex.female + cF)
          linarith
        · unfold jsFloor
          have := Int.lt_floor_add_one (tF * getMigrationWeight env g.age Sex.female + cF)
          linarith

theorem addFinalTo99_sums (finalM finalF : ℤ) :
    ∀ es : List MigEntry, (∃ e ∈ es, e.age = 99) →
      migMaleSum (addFinalTo99 finalM finalF es) = migMaleSum es + finalM ∧
      migFemaleSum (addFinalTo99 finalM finalF es) = migFemaleSum es + finalF
  | [], h => absurd h (by simp)
  | e :: rest, h => by
    by_cases h99 : e.age = 99
    · simp only [addFinalTo99, if_pos h99, migMaleSum, migFemaleSum, List.map_cons,
        List.sum_cons]
      constructor <;> ring
    · have hrest : ∃ x ∈ rest, x.age = 99 := by
        obtain ⟨x, hx, hxeq⟩ := h
        rcases List.mem_cons.mp hx with rfl | hx2
        · exact absurd hxeq h99
        · exact ⟨x, hx2, hxeq⟩
      have ih := addFinalTo99_sums finalM finalF rest hrest
      simp only [addFinalTo99, if_neg h99, migMaleSum, migFemaleSum, List.map_cons,
        List.sum_cons] at ih ⊢
      constructor
      · rw [ih.1]
        ring
      · rw [ih.2]
        ring

theorem applyFinalCarry_sums (entries : List MigEntry) (cM cF : ℚ)
    (h99 : ∃ e ∈ entries, e.age = 99) :
    migMaleSum (applyFinalCarry entries cM cF) = migMaleSum entries + jsRound cM ∧
    migFemaleSum (applyFinalCarry entries cM cF) = migFemaleSum entries + jsRound cF := by
  simp only [applyFinalCarry]
  split_ifs with h
  · exact addFinalTo99_sums (jsRound cM) (jsRound cF) entries h99
  · push_neg at h
    rw [h.1, h.2]
    constructor <;> ring

theorem jsRound_sub_abs_le (c : ℚ) (_h0 : 0 ≤ c) (_h1 : c < 1) :
    |(jsRound c : ℚ) - c| ≤ 1 := by
  unfold jsRound
  rw [abs_le]
  have hle := Int.floor_le (c + 1/2)
  have hlt := Int.sub_one_lt_floor (c + 1/2)
  constructor <;> linarith

theorem wSum_of_range101 (env : Env) (sex : Sex) (pop : List AgeGroup)
    (hp : agesOf pop = List.range 101) :
    wSum env sex pop = ((List.range 100).map (fun a => getMigrationWeight env a sex)).sum := by
  unfold wSum
  have hmm : pop.map (fun g => if 100 ≤ g.age then 0 else getMigrationWeight env g.age sex) =
      (agesOf pop).map (fun a => if 100 ≤ a then 0 else getMigrationWeight env a sex) := by
    simp [agesOf, List.map_map]
  rw [hmm, hp, List.range_succ, List.map_append, List.sum_append]
  have hlast : ((([100] : List ℕ)).map
      (fun a => if 100 ≤ a then (0 : ℚ) else getMigrationWeight env a sex)).sum = 0 := by
    simp
  rw [hlast, add_zero]
  apply congrArg
  exact List.map_congr_left (fun a ha => if_neg (by
    have := List.mem_range.mp ha
    omega))

/-- C6 amended: the carry-forward loop with the final rounded carry
applied to age 99 distributes, for each sex, the share of the net
migration carried by the normalized per-age weights of the regular ages 0
through 99, to within one person per sex; the weight slice that the
parsed final band attributes to the excluded age 100 is never
distributed, so the total can fall short of the full sex-split net
migration by that share. -/
theorem c6_distribution_within_one (env : Env) (p : SimulationParams) (pop : List AgeGroup)
    (hp : agesOf pop = List.range 101) :
    |(migMaleSum (migEntriesFinal env p pop) : ℚ) -
      p.netMigration * env.migSexProportionMale *
        ((List.range 100).map (fun a => getMigrationWeight env a Sex.male)).sum| ≤ 1 ∧
    |(migFemaleSum (migEntriesFinal env p pop) : ℚ) -
      p.netMigration * (1 - env.migSexProportionMale) *
        ((List.range 100).map (fun a => getMigrationWeight env a Sex.female)).sum| ≤ 1 := by
  simp only [migEntriesFinal]
  set tM := p.netMigration * env.migSexProportionMale with htM
  set tF := p.netMigration * (1 - env.migSexProportionMale) with htF
  set r := migLoop env tM tF pop 0 0 with hr
  have h99 : ∃ e ∈ r.1, e.age = 99 := by
    have hmem : (99 : ℕ) ∈ r.1.map (fun e => e.age) := by
      rw [hr, migLoop_ages, hp]
      exact List.mem_range.mpr (by omega)
    obtain ⟨e, he, heq⟩ := List.mem_map.mp hmem
    exact ⟨e, he, heq⟩
  obtain ⟨happM, happF⟩ := applyFinalCarry_sums r.1 r.2.1 r.2.2 h99
  obtain ⟨hsM, hsF⟩ := migLoop_sums env tM tF pop 0 0
  have hbM := (migLoop_carry_bounds env tM tF pop 0 0).1 le_rfl one_pos
  have hbF := (migLoop_carry_bounds env tM tF pop 0 0).2 le_rfl one_pos
  rw [← hr] at hsM hsF hbM hbF
  rw [happM, happF]
  constructor
  · rw [← wSum_of_range101 env Sex.male pop hp]
    push_cast
    rw [hsM]
    have heq : tM * wSum env Sex.male pop + 0 - r.2.1 + (jsRound r.2.1 : ℚ) -
        tM * wSum env Sex.male pop = (jsRound r.2.1 : ℚ) - r.2.1 := by ring
    rw [heq]
    exact jsRound_sub_abs_le r.2.1 hbM.1 hbM.2
  · rw [← wSum_of_range101 env Sex.female pop hp]
    push_cast
    rw [hsF]
    have heq : tF * wSum env Sex.female pop + 0 - r.2.2 + (jsRound r.2.2 : ℚ) -
        tF * wSum env Sex.female pop = (jsRound r.2.2 : ℚ) - r.2.2 := by ring
    rw [heq]
    exact jsRound_sub_abs_le r.2.2 hbF.1 hbF.2

set_option maxRecDepth 100000 in
/-- C6 counterexample: with the real migration profile and the baseline
net migration of 110000, the loop distributes 52791 male migrants against
the male share 52800 and 57183 female migrants against the female share
57200 — short by 9 and 17 people, beyond one person per sex.  The deficit
is the normalized weight slice of the parsed final band at the excluded
age 100. -/
theorem c6_counterexample :
    migMaleSum (migEntriesFinal envData p110 pop1) = 52791 ∧
    p110.netMigration * envData.migSexProportionMale = 52800 ∧
    migFemaleSum (migEntriesFinal envData p110 pop1) = 57183 ∧
    p110.netMigration * (1 - envData.migSexProportionMale) = 57200 ∧
    (1 : ℚ) < |((52791 : ℚ)) - 52800| ∧ (1 : ℚ) < |((57183 : ℚ)) - 57200| := by
  refine ⟨?_, by norm_num [p110, envData], ?_, by norm_num [p110, envData],
    by norm_num, by norm_num⟩ <;> with_unfolding_all exact of_decide_eq_true rfl

set_option maxRecDepth 100000 in
/-- Witness for the amended C6 at the real migration profile. -/
theorem c6_witness :
    |(migMaleSum (migEntriesFinal envData p110 pop1) : ℚ) -
      p110.netMigration * envData.migSexProportionMale *
        ((List.range 100).map (fun a => getMigrationWeight envData a Sex.male)).sum| ≤ 1 ∧
    |(migFemaleSum (migEntriesFinal envData p110 pop1) : ℚ) -
      p110.netMigration * (1 - envData.migSexProportionMale) *
        ((List.range 100).map (fun a => getMigrationWeight envData a Sex.female)).sum| ≤ 1 :=
  c6_distribution_within_one envData p110 pop1 (by with_unfolding_all exact of_decide_eq_true rfl)

theorem migLoop_forall₂ (env : Env) (tM tF : ℚ) :
    ∀ (l : List AgeGroup) (cM cF : ℚ),
      List.Forall₂ entryRel l (migLoop env tM tF l cM cF).1
  | [], _, _ => List.Forall₂.nil
  | g :: rest, cM, cF => by
    by_cases h100 : 100 ≤ g.age
    · simp only [migLoop, if_pos h100]
      exact List.Forall₂.cons ⟨rfl, fun _ => ⟨rfl, rfl⟩⟩ (migLoop_forall₂ env tM tF rest cM cF)
    · simp only [migLoop, if_neg h100]
      exact List.Forall₂.cons ⟨rfl, fun h => absurd h h100⟩ (migLoop_forall₂ env tM tF rest _ _)

theorem addFinalTo99_forall₂ (finalM finalF : ℤ) :
    ∀ {l : List AgeGroup} {es : List MigEntry}, List.Forall₂ entryRel l es →
      List.Forall₂ entryRel l (addFinalTo99 finalM finalF es) := by
  intro l es h
  induction h with
  | nil => exact List.Forall₂.nil
  | cons hR hrest ih =>
    rename_i g e l2 es2
    by_cases h99 : e.age = 99
    · simp only [addFinalTo99, if_pos h99]
      refine List.Forall₂.cons ⟨hR.1, fun hc => ?_⟩ hrest
      have : g.age = 99 := by rw [← hR.1, h99]
      omega
    · simp only [addFinalTo99, if_neg h99]
      exact List.Forall₂.cons hR ih

theorem migEntriesFinal_forall₂ (env : Env) (p : SimulationParams) (pop : List AgeGroup) :
    List.Forall₂ entryRel pop (migEntriesFinal env p pop) := by
  simp only [migEntriesFinal, applyFinalCarry]
  split_ifs
  · exact addFinalTo99_forall₂ _ _ (migLoop_forall₂ env _ _ pop 0 0)
  · exact migLoop_forall₂ env _ _ pop 0 0

theorem pairsMass_eq (pop : List AgeGroup) (entries : List MigEntry)
    (h : List.Forall₂ entryRel pop entries) :
    pairsMass (pop.zip entries) = sumMF pop + migDistributedOf entries := by
  induction h with
  | nil => rfl
  | cons hR hrest ih =>
    rename_i g e l2 es2
    rw [List.zip_cons_cons]
    simp only [pairsMass, sumMF, migDistributedOf, List.map_cons, List.sum_cons] at ih ⊢
    by_cases h100 : 100 ≤ g.age
    · obtain ⟨heM, heF⟩ := hR.2 h100
      rw [if_pos h100, heM, heF, ih]
      ring
    · rw [if_neg h100, ih]
      ring

theorem ageLoop_agg_nonneg (env : Env) (p : SimulationParams) (y : ℕ) :
    ∀ pairs : List (AgeGroup × MigEntry),
      0 ≤ (ageLoop env p y pairs).age100Male ∧ 0 ≤ (ageLoop env p y pairs).age100Female
  | [] => ⟨le_refl 0, le_refl 0⟩
  | (g, e) :: rest => by
    have ih := ageLoop_agg_nonneg env p y rest
    simp only [ageLoop]
    split_ifs
    · exact ⟨add_nonneg (le_max_left 0 _) ih.1, add_nonneg (le_max_left 0 _) ih.2⟩
    · exact ⟨add_nonneg (le_max_left 0 _) ih.1, add_nonneg (le_max_left 0 _) ih.2⟩
    · exact ih

theorem ageLoop_balance_le (env : Env) (p : SimulationParams) (y : ℕ) :
    ∀ pairs : List (AgeGroup × MigEntry),
      pairsMass pairs - (ageLoop env p y pairs).deaths ≤
        sumTotals (ageLoop env p y pairs).cohorts +
          (ageLoop env p y pairs).age100Male + (ageLoop env p y pairs).age100Female
  | [] => le_refl 0
  | (g, e) :: rest => by
    have ih := ageLoop_balance_le env p y rest
    simp only [ageLoop, pairsMass, List.map_cons, List.sum_cons]
    by_cases h100 : 100 ≤ g.age
    · simp only [if_pos h100, sumTotals] at ih ⊢
      have hM := le_max_right (0 : ℤ)
        (g.male - deaths100Of (getMortalityRate env 100 Sex.male y p.mortalityImprovement) g.male)
      have hF := le_max_right (0 : ℤ)
        (g.female - deaths100Of (getMortalityRate env 100 Sex.female y p.mortalityImprovement)
          g.female)
      simp only [surv100Of]
      simp only [pairsMass] at ih
      omega
    · by_cases h99 : g.age = 99
      · simp only [if_neg h100, if_pos h99]
        have hM := le_max_right (0 : ℤ)
          (rawSurvOf env (getMortalityRate env g.age Sex.male y p.mortalityImprovement)
            g.male e.male)
        have hF := le_max_right (0 : ℤ)
          (rawSurvOf env (getMortalityRate env g.age Sex.female y p.mortalityImprovement)
            g.female e.female)
        simp only [survOf, rawSurvOf, afterMigrationOf, pairsMass] at ih hM hF ⊢
        omega
      · simp only [if_neg h100, if_neg h99]
        have hM := le_max_right (0 : ℤ)
          (rawSurvOf env (getMortalityRate env g.age Sex.male y p.mortalityImprovement)
            g.male e.male)
        have hF := le_max_right (0 : ℤ)
          (rawSurvOf env (getMortalityRate env g.age Sex.female y p.mortalityImprovement)
            g.female e.female)
        simp only [survOf, rawSurvOf, afterMigrationOf, pairsMass, sumTotals, List.map_cons,
          List.sum_cons] at ih hM hF ⊢
        omega

theorem ageLoop_balance_eq (env : Env) (p : SimulationParams) (y : ℕ) :
    ∀ pairs : List (AgeGroup × MigEntry), noClamp env p y pairs →
      sumTotals (ageLoop env p y pairs).cohorts +
          (ageLoop env p y pairs).age100Male + (ageLoop env p y pairs).age100Female =
        pairsMass pairs - (ageLoop env p y pairs).deaths
  | [], _ => rfl
  | (g, e) :: rest, hnc => by
    have hhead := hnc (g, e) (List.mem_cons_self _ _)
    dsimp only at hhead
    have ih := ageLoop_balance_eq env p y rest (fun pe hpe => hnc pe (List.mem_cons_of_mem _ hpe))
    simp only [ageLoop, pairsMass, List.map_cons, List.sum_cons]
    by_cases h100 : 100 ≤ g.age
    · rw [if_pos h100] at hhead
      simp only [if_pos h100]
      have hM : surv100Of (getMortalityRate env 100 Sex.male y p.mortalityImprovement) g.male =
          g.male - deaths100Of (getMortalityRate env 100 Sex.male y p.mortalityImprovement)
            g.male := max_eq_right hhead.1
      have hF : surv100Of (getMortalityRate env 100 Sex.female y p.mortalityImprovement)
          g.female =
          g.female - deaths100Of (getMortalityRate env 100 Sex.female y p.mortalityImprovement)
            g.female := max_eq_right hhead.2
      simp only [hM, hF, pairsMass, sumTotals] at ih ⊢
      omega
    · rw [if_neg h100] at hhead
      have hM : survOf env (getMortalityRate env g.age Sex.male y p.mortalityImprovement)
          g.male e.male =
          rawSurvOf env (getMortalityRate env g.age Sex.male y p.mortalityImprovement)
            g.male e.male := max_eq_right hhead.1
      have hF : survOf env (getMortalityRate env g.age Sex.female y p.mortalityImprovement)
          g.female e.female =
          rawSurvOf env (getMortalityRate env g.age Sex.female y p.mortalityImprovement)
            g.female e.female := max_eq_right hhead.2
      by_cases h99 : g.age = 99
      · simp only [if_neg h100, if_pos h99]
        simp only [hM, hF, rawSurvOf, afterMigrationOf, pairsMass, sumTotals] at ih ⊢
        omega
      · simp only [if_neg h100, if_neg h99]
        simp only [hM, hF, rawSurvOf, afterMigrationOf, pairsMass, sumTotals, List.map_cons,
          List.sum_cons] at ih ⊢
        omega

theorem evolveStep_sumTotals (env : Env) (p : SimulationParams) (y : ℕ) (pop : List AgeGroup) :
    sumTotals (evolveStep env p y pop).nextPop =
      (evolveStep env p y pop).births +
        sumTotals (ageLoop env p y (pop.zip (migEntriesFinal env p pop))).cohorts +
        (ageLoop env p y (pop.zip (migEntriesFinal env p pop))).age100Male +
        (ageLoop env p y (pop.zip (migEntriesFinal env p pop))).age100Female := by
  have hnn := ageLoop_agg_nonneg env p y (pop.zip (migEntriesFinal env p pop))
  simp only [evolveStep, sumTotals, List.map_cons, List.sum_cons, List.map_append,
    List.sum_append]
  split_ifs with hpos
  · simp only [List.map_cons, List.map_nil, List.sum_cons, List.sum_nil]
    ring
  · simp only [List.map_nil, List.sum_nil]
    omega

theorem sumTotals_eq_sumMF (pop : List AgeGroup)
    (hct : ∀ g ∈ pop, g.total = g.male + g.female) : sumTotals pop = sumMF pop := by
  unfold sumTotals sumMF
  exact congrArg List.sum (List.map_congr_left hct)

theorem totalPopulationOf_eq_sumTotals (pop : List AgeGroup) (limit : ℤ) (hL : 15 ≤ limit) :
    totalPopulationOf pop limit = sumTotals pop := by
  induction pop with
  | nil => rfl
  | cons g rest ih =>
    simp only [totalPopulationOf, childPopOf, workingPopOf, retiredPopOf, sumTotals] at ih ⊢
    by_cases h1 : (g.age : ℤ) < 15
    · have h1b : decide ((g.age : ℤ) < 15) = true := by simpa using h1
      have h2b : ¬ ((decide (15 ≤ (g.age : ℤ)) && decide ((g.age : ℤ) < limit)) = true) := by
        simp only [Bool.and_eq_true, decide_eq_true_eq]
        omega
      have h3b : ¬ (decide (limit ≤ (g.age : ℤ)) = true) := by
        simp only [decide_eq_true_eq]
        omega
      rw [List.filter_cons, List.filter_cons, List.filter_cons, if_pos h1b, if_neg h2b,
        if_neg h3b]
      simp only [List.map_cons, List.sum_cons]
      omega
    · by_cases h3 : limit ≤ (g.age : ℤ)
      · have h1b : ¬ (decide ((g.age : ℤ) < 15) = true) := by
          simp only [decide_eq_true_eq]
          omega
        have h2b : ¬ ((decide (15 ≤ (g.age : ℤ)) && decide ((g.age : ℤ) < limit)) = true) := by
          simp only [Bool.and_eq_true, decide_eq_true_eq]
          omega
        have h3b : decide (limit ≤ (g.age : ℤ)) = true := by simpa using h3
        rw [List.filter_cons, List.filter_cons, List.filter_cons, if_neg h1b, if_neg h2b,
          if_pos h3b]
        simp only [List.map_cons, List.sum_cons]
        omega
      · have h1b : ¬ (decide ((g.age : ℤ) < 15) = true) := by
          simp only [decide_eq_true_eq]
          omega
        have h2b : (decide (15 ≤ (g.age : ℤ)) && decide ((g.age : ℤ) < limit)) = true := by
          simp only [Bool.and_eq_true, decide_eq_true_eq]
          omega
        have h3b : ¬ (decide (limit ≤ (g.age : ℤ)) = true) := by
          simp only [decide_eq_true_eq]
          omega
        rw [List.filter_cons, List.filter_cons, List.filter_cons, if_neg h1b, if_pos h2b,
          if_neg h3b]
        simp only [List.map_cons, List.sum_cons]
        omega

theorem simLoop_length (env : Env) (p : SimulationParams) (baseYear : ℕ) :
    ∀ (n year : ℕ) (pop : List AgeGroup), (simLoop env p baseYear year n pop).1.length = n
  | 0, _, _ => rfl
  | Nat.succ n, year, pop => by
    simp only [simLoop, List.length_cons]
    rw [simLoop_length env p baseYear n (year + 1) (evolveStep env p (year - baseYear) pop).nextPop]

theorem runSimulation_ok_of_valid (env : Env) (startYear endYear : ℕ) (p : SimulationParams)
    (h : paramsValid p) :
    runSimulation env startYear endYear p =
      Except.ok (simLoop env p startYear startYear (endYear + 1 - startYear)
        (generateInitialData env)) := by
  obtain ⟨hf1, hf2, hr1, hr2, hn1, hn2, hm1, hm2, hw1, hw2⟩ := h
  unfold runSimulation
  split_ifs with h1 h2 h3 h4 h5
  · rcases h1 with h1 | h1 <;> linarith
  · rcases h2 with h2 | h2 <;> omega
  · rcases h3 with h3 | h3 <;> linarith
  · rcases h4 with h4 | h4 <;> linarith
  · rcases h5 with h5 | h5 <;> linarith
  · rfl

/-- C1: under valid parameters and consistent cohort totals, the total of
the next snapshot is never below the balance expected from the counters,
and equals it exactly whenever no non-negativity clamp fires in the step
(so the conservation identity holds within any tolerance); independently
of any balance discrepancy the run returns the complete series, one record
per year — the balance check is a diagnostic only. -/
theorem c1_conservation_and_nonfatal (env : Env) (p : SimulationParams) (y : ℕ)
    (pop : List AgeGroup) (hp : paramsValid p)
    (hct : ∀ g ∈ pop, g.total = g.male + g.female) :
    (totalPopulationOf pop p.retirementAge + (evolveStep env p y pop).births -
        (evolveStep env p y pop).deaths + (evolveStep env p y pop).migration ≤
      sumTotals (evolveStep env p y pop).nextPop) ∧
    (noClamp env p y (pop.zip (migEntriesFinal env p pop)) →
      sumTotals (evolveStep env p y pop).nextPop =
        totalPopulationOf pop p.retirementAge + (evolveStep env p y pop).births -
          (evolveStep env p y pop).deaths + (evolveStep env p y pop).migration) ∧
    (∀ startYear endYear : ℕ,
      runSimulation env startYear endYear p =
        Except.ok (simLoop env p startYear startYear (endYear + 1 - startYear)
          (generateInitialData env)) ∧
      (simLoop env p startYear startYear (endYear + 1 - startYear)
        (generateInitialData env)).1.length = endYear + 1 - startYear) := by
  have hL : (15 : ℤ) ≤ p.retirementAge := by
    obtain ⟨_, _, hr1, _⟩ := hp
    omega
  have htp := totalPopulationOf_eq_sumTotals pop p.retirementAge hL
  have hmf := sumTotals_eq_sumMF pop hct
  have hzip := pairsMass_eq pop (migEntriesFinal env p pop) (migEntriesFinal_forall₂ env p pop)
  have hsum := evolveStep_sumTotals env p y pop
  have hb : (evolveStep env p y pop).births = birthsOf env p pop := rfl
  have hd : (evolveStep env p y pop).deaths =
      (ageLoop env p y (pop.zip (migEntriesFinal env p pop))).deaths := rfl
  have hm : (evolveStep env p y pop).migration = migDistributedOf (migEntriesFinal env p pop) :=
    rfl
  refine ⟨?_, ?_, ?_⟩
  · have hle := ageLoop_balance_le env p y (pop.zip (migEntriesFinal env p pop))
    rw [hsum, hb, hd, hm, htp, hmf]
    omega
  · intro hnc
    have heq := ageLoop_balance_eq env p y (pop.zip (migEntriesFinal env p pop)) hnc
    rw [hsum, hb, hd, hm, htp, hmf]
    omega
  · intro startYear endYear
    exact ⟨runSimulation_ok_of_valid env startYear endYear p hp,
      simLoop_length env p startYear _ startYear (generateInitialData env)⟩

set_option maxRecDepth 100000 in
/-- Witness for C1: on the all-zero snapshot with zero migration, no
clamp fires and the balance identity holds exactly; the seven-year run
returns seven records. -/
theorem c1_witness :
    sumTotals (evolveStep envW p1 0 pop1).nextPop =
      totalPopulationOf pop1 p1.retirementAge + (evolveStep envW p1 0 pop1).births -
        (evolveStep envW p1 0 pop1).deaths + (evolveStep envW p1 0 pop1).migration ∧
    (simLoop envW p1 2024 2024 (2030 + 1 - 2024) (generateInitialData envW)).1.length =
      2030 + 1 - 2024 :=
  ⟨((c1_conservation_and_nonfatal envW p1 0 pop1
      (by with_unfolding_all exact of_decide_eq_true rfl)
      (by with_unfolding_all exact of_decide_eq_true rfl)).2.1
      (by with_unfolding_all exact of_decide_eq_true rfl)),
   ((c1_conservation_and_nonfatal envW p1 0 pop1
      (by with_unfolding_all exact of_decide_eq_true rfl)
      (by with_unfolding_all exact of_decide_eq_true rfl)).2.2 2024 2030).2⟩

theorem runSimulation_error_of_invalid (env : Env) (startYear endYear : ℕ)
    (p : SimulationParams) (h : ¬ paramsValid p) :
    ∃ msg, runSimulation env startYear endYear p = Except.error msg := by
  unfold runSimulation
  split_ifs with h1 h2 h3 h4 h5
  · exact ⟨_, rfl⟩
  · exact ⟨_, rfl⟩
  · exact ⟨_, rfl⟩
  · exact ⟨_, rfl⟩
  · exact ⟨_, rfl⟩
  · exfalso
    apply h
    push_neg at h1 h2 h3 h4 h5
    exact ⟨h1.1, h1.2, h2.1, h2.2, h3.1, h3.2, h4.1, h4.2, h5.1, h5.2⟩

theorem jsRound_nonneg (q : ℚ) (h : 0 ≤ q) : 0 ≤ jsRound q := by
  unfold jsRound
  rw [Int.le_floor]
  push_cast
  linarith

theorem jsFloor_nonneg (q : ℚ) (h : 0 ≤ q) : 0 ≤ jsFloor q := by
  unfold jsFloor
  rw [Int.le_floor]
  push_cast
  exact h

theorem totalBirthsExact_nonneg (env : Env) (p : SimulationParams) (pop : List AgeGroup)
    (hasfr : ∀ a, 0 ≤ getFertilityRate env a) (hfert : 0 ≤ p.fertilityRate)
    (hf : ∀ g ∈ pop, 0 ≤ g.female) : 0 ≤ totalBirthsExact env p pop := by
  unfold totalBirthsExact
  apply List.sum_nonneg
  intro x hx
  obtain ⟨g, hg, rfl⟩ := List.mem_map.mp hx
  split_ifs
  · apply mul_nonneg (by exact_mod_cast hf g hg)
    exact mul_nonneg (hasfr g.age) (div_nonneg hfert (by norm_num))
  · exact le_refl 0

theorem maleBirthsOf_bounds (env : Env) (b : ℤ) (hb : 0 ≤ b) (hr : 0 ≤ env.sexRatioAtBirth) :
    0 ≤ maleBirthsOf env b ∧ maleBirthsOf env b ≤ b := by
  have hq : (0 : ℚ) ≤ (b : ℚ) := by exact_mod_cast hb
  have hfrac0 : 0 ≤ env.sexRatioAtBirth / (1 + env.sexRatioAtBirth) :=
    div_nonneg hr (by linarith)
  have hfrac1 : env.sexRatioAtBirth / (1 + env.sexRatioAtBirth) ≤ 1 := by
    rw [div_le_one (by linarith)]
    linarith
  constructor
  · exact jsFloor_nonneg _ (mul_nonneg hq hfrac0)
  · unfold maleBirthsOf jsFloor
    calc ⌊(b : ℚ) * (env.sexRatioAtBirth / (1 + env.sexRatioAtBirth))⌋
        ≤ ⌊(b : ℚ)⌋ := Int.floor_le_floor (mul_le_of_le_one_right hq hfrac1)
      _ = b := Int.floor_intCast b

theorem ageLoop_cohorts_nonneg (env : Env) (p : SimulationParams) (y : ℕ) :
    ∀ pairs : List (AgeGroup × MigEntry), ∀ g ∈ (ageLoop env p y pairs).cohorts,
      0 ≤ g.male ∧ 0 ≤ g.female ∧ 0 ≤ g.total
  | [] => by
    intro g hg
    exact absurd hg (List.not_mem_nil _)
  | (g0, e0) :: rest => by
    have ih := ageLoop_cohorts_nonneg env p y rest
    simp only [ageLoop]
    split_ifs
    · exact ih
    · exact ih
    · intro g hg
      rcases List.mem_cons.mp hg with rfl | h
      · exact ⟨le_max_left 0 _, le_max_left 0 _,
          add_nonneg (le_max_left 0 _) (le_max_left 0 _)⟩
      · exact ih g h

theorem ageLoop_cohorts_consistent (env : Env) (p : SimulationParams) (y : ℕ) :
    ∀ pairs : List (AgeGroup × MigEntry), ∀ g ∈ (ageLoop env p y pairs).cohorts,
      g.total = g.male + g.female
  | [] => by
    intro g hg
    exact absurd hg (List.not_mem_nil _)
  | (g0, e0) :: rest => by
    have ih := ageLoop_cohorts_consistent env p y rest
    simp only [ageLoop]
    split_ifs
    · exact ih
    · exact ih
    · intro g hg
      rcases List.mem_cons.mp hg with rfl | h
      · rfl
      · exact ih g h

theorem evolveStep_nonneg (env : Env) (p : SimulationParams) (y : ℕ) (pop : List AgeGroup)
    (hasfr : ∀ a, 0 ≤ getFertilityRate env a) (hr : 0 ≤ env.sexRatioAtBirth)
    (hfert : 0 ≤ p.fertilityRate) (hf : ∀ g ∈ pop, 0 ≤ g.female) :
    ∀ g ∈ (evolveStep env p y pop).nextPop, 0 ≤ g.male ∧ 0 ≤ g.female ∧ 0 ≤ g.total := by
  intro g hg
  have hb : 0 ≤ birthsOf env p pop :=
    jsRound_nonneg _ (totalBirthsExact_nonneg env p pop hasfr hfert hf)
  have hmb := maleBirthsOf_bounds env (birthsOf env p pop) hb hr
  have hagg := ageLoop_agg_nonneg env p y (pop.zip (migEntriesFinal env p pop))
  simp only [evolveStep] at hg
  rcases List.mem_cons.mp hg with rfl | h2
  · refine ⟨hmb.1, ?_, hb⟩
    dsimp only
    omega
  · rcases List.mem_append.mp h2 with h3 | h4
    · exact ageLoop_cohorts_nonneg env p y _ g h3
    · revert h4
      split_ifs with hpos
      · intro h4
        rcases List.mem_cons.mp h4 with rfl | h5
        · exact ⟨hagg.1, hagg.2, add_nonneg hagg.1 hagg.2⟩
        · exact absurd h5 (List.not_mem_nil _)
      · intro h4
        exact absurd h4 (List.not_mem_nil _)

theorem evolveStep_totals_consistent (env : Env) (p : SimulationParams) (y : ℕ)
    (pop : List AgeGroup) :
    ∀ g ∈ (evolveStep env p y pop).nextPop, g.total = g.male + g.female := by
  intro g hg
  simp only [evolveStep] at hg
  rcases List.mem_cons.mp hg with rfl | h2
  · dsimp only
    omega
  · rcases List.mem_append.mp h2 with h3 | h4
    · exact ageLoop_cohorts_consistent env p y _ g h3
    · revert h4
      split_ifs with hpos
      · intro h4
        rcases List.mem_cons.mp h4 with rfl | h5
        · rfl
        · exact absurd h5 (List.not_mem_nil _)
      · intro h4
        exact absurd h4 (List.not_mem_nil _)

theorem simLoop_populations_nonneg (env : Env) (p : SimulationParams) (baseYear : ℕ)
    (hasfr : ∀ a, 0 ≤ getFertilityRate env a) (hr : 0 ≤ env.sexRatioAtBirth)
    (hfert : 0 ≤ p.fertilityRate) :
    ∀ (n year : ℕ) (pop : List AgeGroup),
      (∀ g ∈ pop, 0 ≤ g.male ∧ 0 ≤ g.female ∧ 0 ≤ g.total) →
      ∀ r ∈ (simLoop env p baseYear year n pop).1, ∀ g ∈ r.population,
        0 ≤ g.male ∧ 0 ≤ g.female ∧ 0 ≤ g.total
  | 0, year, pop, hpop => by
    intro r hr2
    exact absurd hr2 (List.not_mem_nil _)
  | Nat.succ n, year, pop, hpop => by
    intro r hr2
    simp only [simLoop] at hr2
    rcases List.mem_cons.mp hr2 with rfl | hmem
    · intro g hg
      exact hpop g hg
    · exact simLoop_populations_nonneg env p baseYear hasfr hr hfert n (year + 1) _
        (evolveStep_nonneg env p (year - baseYear) pop hasfr hr hfert
          (fun g hg => (hpop g hg).2.1)) r hmem

theorem simLoop_populations_consistent (env : Env) (p : SimulationParams) (baseYear : ℕ) :
    ∀ (n year : ℕ) (pop : List AgeGroup),
      (∀ g ∈ pop, g.total = g.male + g.female) →
      ∀ r ∈ (simLoop env p baseYear year n pop).1, ∀ g ∈ r.population,
        g.total = g.male + g.female
  | 0, year, pop, hpop => by
    intro r hr2
    exact absurd hr2 (List.not_mem_nil _)
  | Nat.succ n, year, pop, hpop => by
    intro r hr2
    simp only [simLoop] at hr2
    rcases List.mem_cons.mp hr2 with rfl | hmem
    · intro g hg
      exact hpop g hg
    · exact simLoop_populations_consistent env p baseYear n (year + 1) _
        (evolveStep_totals_consistent env p (year - baseYear) pop) r hmem

/-- C8: under valid parameters, a non-negative baseline table, a
non-negative fertility table and a non-negative sex ratio at birth, no
cohort of any snapshot in the output series has a negative male, female or
total count. -/
theorem c8_no_negative_counts (env : Env) (p : SimulationParams) (startYear endYear : ℕ)
    (hp : paramsValid p)
    (hinit : ∀ row ∈ env.initialData, 0 ≤ row.male ∧ 0 ≤ row.female)
    (hasfr : ∀ a, 0 ≤ getFertilityRate env a) (hr : 0 ≤ env.sexRatioAtBirth) :
    ∀ r ∈ resultsOf (runSimulation env startYear endYear p), ∀ g ∈ r.population,
      0 ≤ g.male ∧ 0 ≤ g.female ∧ 0 ≤ g.total := by
  rw [runSimulation_ok_of_valid env startYear endYear p hp]
  simp only [resultsOf]
  have hinit2 : ∀ g ∈ generateInitialData env, 0 ≤ g.male ∧ 0 ≤ g.female ∧ 0 ≤ g.total := by
    intro g hg
    obtain ⟨row, hrow, rfl⟩ := List.mem_map.mp hg
    obtain ⟨h1, h2⟩ := hinit row hrow
    exact ⟨h1, h2, add_nonneg h1 h2⟩
  exact simLoop_populations_nonneg env p startYear hasfr hr hp.1 _ startYear _ hinit2

set_option maxRecDepth 100000 in
/-- Witness for C8: the single baseline cohort of the one-year witness run
has non-negative counts. -/
theorem c8_witness :
    0 ≤ (⟨0, 2, 3, 5⟩ : AgeGroup).male ∧ 0 ≤ (⟨0, 2, 3, 5⟩ : AgeGroup).female ∧
      0 ≤ (⟨0, 2, 3, 5⟩ : AgeGroup).total :=
  c8_no_negative_counts envW p0 2024 2024
    (by with_unfolding_all exact of_decide_eq_true rfl)
    (by with_unfolding_all exact of_decide_eq_true rfl)
    (fun a => by simp [getFertilityRate, envW])
    (by norm_num [envW])
    r0 (by with_unfolding_all exact of_decide_eq_true rfl)
    ⟨0, 2, 3, 5⟩ (by with_unfolding_all exact of_decide_eq_true rfl)

/-- C10: every cohort constructed by the engine satisfies
total = male + female exactly: in the seeded baseline snapshot and in
every snapshot stored in any record of any run. -/
theorem c10_totals_consistent (env : Env) (p : SimulationParams) (startYear endYear : ℕ) :
    (∀ g ∈ generateInitialData env, g.total = g.male + g.female) ∧
    (∀ r ∈ resultsOf (runSimulation env startYear endYear p), ∀ g ∈ r.population,
      g.total = g.male + g.female) := by
  have hinit : ∀ g ∈ generateInitialData env, g.total = g.male + g.female := by
    intro g hg
    obtain ⟨row, hrow, rfl⟩ := List.mem_map.mp hg
    rfl
  refine ⟨hinit, ?_⟩
  by_cases hp : paramsValid p
  · rw [runSimulation_ok_of_valid env startYear endYear p hp]
    simp only [resultsOf]
    exact simLoop_populations_consistent env p startYear _ startYear _ hinit
  · obtain ⟨msg, hmsg⟩ := runSimulation_error_of_invalid env startYear endYear p hp
    rw [hmsg]
    intro r hr2
    exact absurd hr2 (List.not_mem_nil _)

set_option maxRecDepth 100000 in
/-- Witness for C10: the cohort stored in the first record of the witness
run has total 5 = 2 + 3. -/
theorem c10_witness :
    (⟨0, 2, 3, 5⟩ : AgeGroup).total = (⟨0, 2, 3, 5⟩ : AgeGroup).male +
      (⟨0, 2, 3, 5⟩ : AgeGroup).female :=
  (c10_totals_consistent envW p0 2024 2024).2 r0
    (by with_unfolding_all exact of_decide_eq_true rfl)
    ⟨0, 2, 3, 5⟩ (by with_unfolding_all exact of_decide_eq_true rfl)

end DemoSim
